import Mathlib

/-!
Verification of the secure-channel + multiplex-RPC core of a Scuttlebutt-style
networking stack, against its natural-language specification.

The Rust sources are shallowly embedded: machine integers become `Nat`/`Int`
with explicit wrap-around where it matters, byte buffers become `List Nat`
(each element intended `< 256`), fallible functions return `Except`/`Option`,
and `&mut self` methods return the updated state explicitly.

External library code (the `sodiumoxide` crypto primitives and `serde_json`)
is not part of the repository; those parts are modelled from the
specification, as stated in the doc comment of each such definition.
-/

set_option maxHeartbeats 1000000
set_option maxRecDepth 100000

namespace RustSsb

/-! ## Byte-level utilities -/

/-- Big-endian value of a byte list (as in `u16::from_be_bytes`,
`Buf::get_u32`, …). -/
def fromBe : List Nat → Nat
  | [] => 0
  | b :: rest => b * 256 ^ rest.length + fromBe rest

/-- The `n` big-endian bytes of `x` (as in `to_be_bytes`, `BufMut::put_u32`,
…); high bits of `x` beyond `n` bytes are dropped, matching the fixed-width
machine integers. -/
def beBytes : Nat → Nat → List Nat
  | 0, _ => []
  | n + 1, x => x / 256 ^ n % 256 :: beBytes n x

/-- Every element of the list is a byte value. -/
def IsBytes (l : List Nat) : Prop := ∀ b ∈ l, b < 256

instance : DecidablePred IsBytes := fun l =>
  inferInstanceAs (Decidable (∀ b ∈ l, b < 256))

@[simp]
theorem length_beBytes (n x : Nat) : (beBytes n x).length = n := by
  induction n generalizing x with
  | zero => rfl
  | succ n ih => simp [beBytes, ih]

theorem isBytes_beBytes (n x : Nat) : IsBytes (beBytes n x) := by
  induction n generalizing x with
  | zero => intro b hb; simp [beBytes] at hb
  | succ n ih =>
    intro b hb
    simp only [beBytes, List.mem_cons] at hb
    rcases hb with h | h
    · subst h; exact Nat.mod_lt _ (by norm_num)
    · exact ih x b h

theorem fromBe_lt (l : List Nat) (h : IsBytes l) : fromBe l < 256 ^ l.length := by
  induction l with
  | nil => simp [fromBe]
  | cons b rest ih =>
    have hb : b < 256 := h b (List.mem_cons_self ..)
    have hrest : fromBe rest < 256 ^ rest.length :=
      ih (fun x hx => h x (List.mem_cons_of_mem _ hx))
    have : b * 256 ^ rest.length + fromBe rest < (b + 1) * 256 ^ rest.length := by
      nlinarith [Nat.pos_pow_of_pos rest.length (show 0 < 256 by norm_num)]
    calc b * 256 ^ rest.length + fromBe rest
        < (b + 1) * 256 ^ rest.length := this
      _ ≤ 256 * 256 ^ rest.length := by
          exact Nat.mul_le_mul_right _ (by omega)
      _ = 256 ^ (rest.length + 1) := by ring
      _ = 256 ^ (b :: rest).length := by simp

theorem fromBe_beBytes (n x : Nat) : fromBe (beBytes n x) = x % 256 ^ n := by
  induction n generalizing x with
  | zero => simp [beBytes, fromBe, Nat.mod_one]
  | succ n ih =>
    have hmul : x % (256 ^ n * 256) = x % 256 ^ n + 256 ^ n * (x / 256 ^ n % 256) :=
      Nat.mod_mul
    simp only [beBytes, fromBe, length_beBytes, ih, pow_succ, hmul]
    ring

theorem fromBe_beBytes_of_lt {n x : Nat} (h : x < 256 ^ n) :
    fromBe (beBytes n x) = x := by
  rw [fromBe_beBytes, Nat.mod_eq_of_lt h]

/-- `beBytes` only looks at the value modulo `256 ^ n`. -/
theorem beBytes_add_mul_pow (n x c : Nat) :
    beBytes n (x + c * 256 ^ n) = beBytes n x := by
  induction n generalizing x c with
  | zero => rfl
  | succ n ih =>
    have h1 : x + c * 256 ^ (n + 1) = x + c * 256 * 256 ^ n := by ring
    simp only [beBytes, h1]
    rw [Nat.add_mul_div_right _ _ (Nat.pos_pow_of_pos n (by norm_num)),
      Nat.add_mul_mod_self_right, ih]

theorem beBytes_fromBe (l : List Nat) (h : IsBytes l) :
    beBytes l.length (fromBe l) = l := by
  induction l with
  | nil => rfl
  | cons b rest ih =>
    have hb : b < 256 := h b (List.mem_cons_self ..)
    have hbytes : IsBytes rest := fun x hx => h x (List.mem_cons_of_mem _ hx)
    have hrest : fromBe rest < 256 ^ rest.length := fromBe_lt rest hbytes
    simp only [List.length_cons, beBytes, fromBe]
    have hcomm : b * 256 ^ rest.length + fromBe rest
        = fromBe rest + b * 256 ^ rest.length := by ring
    rw [hcomm, beBytes_add_mul_pow, ih hbytes,
      Nat.add_mul_div_right _ _ (Nat.pos_pow_of_pos rest.length (by norm_num)),
      Nat.div_eq_of_lt hrest]
    simp [Nat.mod_eq_of_lt hb]

/-- Little-endian value of a byte list; used to reason about the
reversed-order traversal of `increment_be`. -/
def fromLe : List Nat → Nat
  | [] => 0
  | b :: rest => b + 256 * fromLe rest

theorem fromLe_append (xs ys : List Nat) :
    fromLe (xs ++ ys) = fromLe xs + 256 ^ xs.length * fromLe ys := by
  induction xs with
  | nil => simp [fromLe]
  | cons b rest ih =>
    rw [List.cons_append]
    simp only [fromLe, List.length_cons]
    rw [ih]
    ring

theorem fromBe_eq_fromLe_reverse (l : List Nat) : fromBe l = fromLe l.reverse := by
  induction l with
  | nil => rfl
  | cons b rest ih =>
    simp only [fromBe, List.reverse_cons, fromLe_append, fromLe, ih,
      List.length_reverse]
    ring

theorem fromLe_lt (l : List Nat) (h : IsBytes l) : fromLe l < 256 ^ l.length := by
  induction l with
  | nil => simp [fromLe]
  | cons b rest ih =>
    have hb : b < 256 := h b (List.mem_cons_self ..)
    have hrest : fromLe rest < 256 ^ rest.length :=
      ih (fun x hx => h x (List.mem_cons_of_mem _ hx))
    simp only [fromLe, List.length_cons, pow_succ]
    nlinarith

/-! ## `increment_be` (src/ssb-box-stream/src/cipher.rs and
src/src/box_stream/box_crypt.rs, where it appears verbatim)

The Rust loop walks the buffer from the last byte towards the first; a byte
equal to `u8::MAX` is zeroed and the carry continues, otherwise the byte is
incremented and the loop breaks.  We express the loop as structural recursion
over the reversed byte list. -/

def incrementBeRev : List Nat → List Nat
  | [] => []
  | b :: rest => if b = 255 then 0 :: incrementBeRev rest else (b + 1) :: rest

/-- Interpret the buffer as a big endian unsigned integer and increment it by
one.  Overflows when all bits are 1. -/
def increment_be (bytes : List Nat) : List Nat :=
  (incrementBeRev bytes.reverse).reverse

@[simp]
theorem length_incrementBeRev (l : List Nat) :
    (incrementBeRev l).length = l.length := by
  induction l with
  | nil => rfl
  | cons b rest ih =>
    by_cases hb : b = 255 <;> simp [incrementBeRev, hb, ih]

@[simp]
theorem length_increment_be (l : List Nat) :
    (increment_be l).length = l.length := by
  simp [increment_be]

theorem isBytes_incrementBeRev (l : List Nat) (h : IsBytes l) :
    IsBytes (incrementBeRev l) := by
  induction l with
  | nil => intro b hb; simp [incrementBeRev] at hb
  | cons b rest ih =>
    have hb : b < 256 := h b (List.mem_cons_self ..)
    have hrest : IsBytes rest := fun x hx => h x (List.mem_cons_of_mem _ hx)
    intro x hx
    by_cases hcase : b = 255 <;> simp only [incrementBeRev, hcase, if_true,
      if_false, reduceIte, List.mem_cons] at hx
    · rcases hx with h1 | h1
      · omega
      · exact ih hrest x h1
    · rcases hx with h1 | h1
      · omega
      · exact hrest x h1

theorem isBytes_increment_be (l : List Nat) (h : IsBytes l) :
    IsBytes (increment_be l) := by
  intro x hx
  simp only [increment_be, List.mem_reverse] at hx
  exact isBytes_incrementBeRev l.reverse
    (fun b hb => h b (List.mem_reverse.mp hb)) x hx

theorem fromLe_incrementBeRev (l : List Nat) (h : IsBytes l) :
    fromLe (incrementBeRev l) = (fromLe l + 1) % 256 ^ l.length := by
  induction l with
  | nil => simp [incrementBeRev, fromLe]
  | cons b rest ih =>
    have hb : b < 256 := h b (List.mem_cons_self ..)
    have hrest : IsBytes rest := fun x hx => h x (List.mem_cons_of_mem _ hx)
    by_cases hcase : b = 255
    · subst hcase
      simp only [incrementBeRev, if_true, reduceIte, fromLe, ih hrest,
        List.length_cons]
      have : 255 + 256 * fromLe rest + 1 = 256 * (fromLe rest + 1) := by ring
      rw [this, pow_succ, Nat.mul_comm (256 ^ rest.length) 256,
        Nat.mul_mod_mul_left]
      omega
    · have hlt : fromLe rest < 256 ^ rest.length := fromLe_lt rest hrest
      have hsmall : b + 256 * fromLe rest + 1 < 256 ^ (rest.length + 1) := by
        have hb' : b ≤ 254 := by omega
        calc b + 256 * fromLe rest + 1
            ≤ 254 + 256 * (256 ^ rest.length - 1) + 1 := by
              have := Nat.mul_le_mul_left 256
                (show fromLe rest ≤ 256 ^ rest.length - 1 by omega)
              omega
          _ < 256 ^ (rest.length + 1) := by
              have hpos : 0 < 256 ^ rest.length :=
                Nat.pos_pow_of_pos _ (by norm_num)
              rw [pow_succ]
              omega
      simp only [incrementBeRev, hcase, reduceIte, fromLe, List.length_cons]
      rw [Nat.mod_eq_of_lt hsmall]
      ring

theorem fromBe_increment_be (l : List Nat) (h : IsBytes l) :
    fromBe (increment_be l) = (fromBe l + 1) % 256 ^ l.length := by
  have hrev : IsBytes l.reverse := fun b hb => h b (List.mem_reverse.mp hb)
  rw [fromBe_eq_fromLe_reverse, increment_be, List.reverse_reverse,
    fromLe_incrementBeRev l.reverse hrev, fromBe_eq_fromLe_reverse,
    List.length_reverse]

/-! ## Claim C8: `increment_be` -/

/-- **C8.** For every 24-byte buffer whose contents, read as a big-endian
unsigned integer, equal `v` with `v < 2^192 − 1`, `increment_be` turns the
buffer into the big-endian encoding of `v + 1`; when every bit of the buffer
is 1 (`v = 2^192 − 1`), `increment_be` wraps the buffer to all zeros. -/
theorem increment_be_spec :
    (∀ bs : List Nat, bs.length = 24 → IsBytes bs → fromBe bs < 2 ^ 192 - 1 →
      increment_be bs = beBytes 24 (fromBe bs + 1)) ∧
    increment_be (List.replicate 24 255) = List.replicate 24 0 := by
  constructor
  · intro bs hlen hbytes hlt
    have hpow : (256 : Nat) ^ 24 = 2 ^ 192 := by norm_num
    have hval : fromBe (increment_be bs) = fromBe bs + 1 := by
      rw [fromBe_increment_be bs hbytes, hlen, hpow, Nat.mod_eq_of_lt (by omega)]
    have hinj := beBytes_fromBe (increment_be bs) (isBytes_increment_be bs hbytes)
    rw [length_increment_be, hlen, hval] at hinj
    exact hinj.symm
  · decide

theorem increment_be_spec_witness :
    increment_be (List.replicate 24 0) = beBytes 24 (fromBe (List.replicate 24 0) + 1) :=
  increment_be_spec.1 (List.replicate 24 0) (by decide) (by decide) (by decide)

/-! ## RPC header codec (src/muxrpc/src/header.rs and src/src/rpc/base/header.rs)

The two files declare structurally identical `Header`, `HeaderFlags` and
`BodyType` types, which we share; `Header::parse` differs between them (the
muxrpc version rejects a zero request number, the rpc/base draft does not),
so each file gets its own `parse`, `build` and error type.  A 9-byte header
array is a `List Nat` of length 9; the `i32` request number is an `Int` and
is serialized as its two's complement, i.e. its value modulo `2^32`. -/

inductive BodyType where
  | Binary
  | Utf8String
  | Json
deriving DecidableEq, Repr

def BodyType.toNat : BodyType → Nat
  | .Binary => 0
  | .Utf8String => 1
  | .Json => 2

structure HeaderFlags where
  is_stream : Bool
  is_end_or_error : Bool
deriving DecidableEq, Repr

structure Header where
  flags : HeaderFlags
  body_type : BodyType
  body_len : Nat
  request_number : Int
deriving DecidableEq, Repr

/-- Range constraints imposed by the Rust field types (`body_len : u32`,
`request_number : i32`). -/
def Header.Wf (h : Header) : Prop :=
  h.body_len < 2 ^ 32 ∧ -(2 ^ 31) ≤ h.request_number ∧ h.request_number < 2 ^ 31

instance : DecidablePred Header.Wf := fun h =>
  inferInstanceAs (Decidable (_ ∧ _ ∧ _))

def IS_STREAM_MASK : Nat := 8
def IS_END_OR_ERROR_MASK : Nat := 4

/-- Decode the `i32` read by `Buf::get_i32` from its unsigned 32-bit value. -/
def decodeI32 (rn : Nat) : Int :=
  if rn < 2 ^ 31 then (rn : Int) else (rn : Int) - 2 ^ 32

namespace Muxrpc

inductive HeaderParseError where
  | InvalidBodyType (value : Nat)
  | RequestNumberZero
deriving DecidableEq, Repr

def BodyType.from_flags (value : Nat) : Except HeaderParseError BodyType :=
  match value &&& 3 with
  | 0 => .ok .Binary
  | 1 => .ok .Utf8String
  | 2 => .ok .Json
  | v => .error (.InvalidBodyType v)

def Header.parse (data : List Nat) : Except HeaderParseError (Option Header) :=
  if data = List.replicate 9 0 then .ok none
  else
    let flags := data.headI
    let is_stream := flags &&& IS_STREAM_MASK != 0
    let is_end_or_error := flags &&& IS_END_OR_ERROR_MASK != 0
    match BodyType.from_flags flags with
    | .error e => .error e
    | .ok body_type =>
      let body_len := fromBe ((data.drop 1).take 4)
      let request_number := decodeI32 (fromBe ((data.drop 5).take 4))
      if request_number = 0 then .error .RequestNumberZero
      else .ok (some { flags := { is_stream, is_end_or_error },
                       body_type, body_len, request_number })

def Header.build (h : Header) : List Nat :=
  let flags := h.body_type.toNat
    ||| (if h.flags.is_stream then IS_STREAM_MASK else 0)
    ||| (if h.flags.is_end_or_error then IS_END_OR_ERROR_MASK else 0)
  flags :: (beBytes 4 h.body_len ++ beBytes 4 (h.request_number % 2 ^ 32).toNat)

end Muxrpc

namespace RpcBase

inductive HeaderParseError where
  | InvalidBodyType (value : Nat)
deriving DecidableEq, Repr

def BodyType.from_flags (value : Nat) : Except HeaderParseError BodyType :=
  match value &&& 3 with
  | 0 => .ok .Binary
  | 1 => .ok .Utf8String
  | 2 => .ok .Json
  | v => .error (.InvalidBodyType v)

def Header.parse (data : List Nat) : Except HeaderParseError (Option Header) :=
  if data = List.replicate 9 0 then .ok none
  else
    let flags := data.headI
    let is_stream := flags &&& IS_STREAM_MASK != 0
    let is_end_or_error := flags &&& IS_END_OR_ERROR_MASK != 0
    match BodyType.from_flags flags with
    | .error e => .error e
    | .ok body_type =>
      let body_len := fromBe ((data.drop 1).take 4)
      let request_number := decodeI32 (fromBe ((data.drop 5).take 4))
      .ok (some { flags := { is_stream, is_end_or_error },
                  body_type, body_len, request_number })

def Header.build (h : Header) : List Nat :=
  let flags := h.body_type.toNat
    ||| (if h.flags.is_stream then IS_STREAM_MASK else 0)
    ||| (if h.flags.is_end_or_error then IS_END_OR_ERROR_MASK else 0)
  flags :: (beBytes 4 h.body_len ++ beBytes 4 (h.request_number % 2 ^ 32).toNat)

end RpcBase

end RustSsb

namespace RustSsb

/-! ## Header codec proofs (claims C5, C6) -/

instance {ε α : Type} [DecidableEq ε] [DecidableEq α] : DecidableEq (Except ε α)
  | .ok a, .ok b =>
    if h : a = b then isTrue (by rw [h]) else isFalse (fun hh => h (Except.ok.inj hh))
  | .error a, .error b =>
    if h : a = b then isTrue (by rw [h]) else isFalse (fun hh => h (Except.error.inj hh))
  | .ok _, .error _ => isFalse (fun hh => Except.noConfusion hh)
  | .error _, .ok _ => isFalse (fun hh => Except.noConfusion hh)

theorem decodeI32_emod (r : Int) (h1 : -(2 ^ 31) ≤ r) (h2 : r < 2 ^ 31) :
    decodeI32 ((r % 2 ^ 32).toNat) = r := by
  simp only [decodeI32]
  split <;> omega

theorem toNat_emod_lt (r : Int) : ((r % 2 ^ 32).toNat) < 2 ^ 32 := by omega

theorem fromBe_beBytes4 (x : Nat) (h : x < 2 ^ 32) : fromBe (beBytes 4 x) = x := by
  apply fromBe_beBytes_of_lt
  norm_num at h ⊢
  omega

/-- A built header is never the all-zero goodbye array, because its
`body_len` field is nonzero. -/
theorem build_ne_goodbye (f len m : Nat) (hpos : 1 ≤ len) (hlen : len < 2 ^ 32) :
    f :: (beBytes 4 len ++ beBytes 4 m) ≠ List.replicate 9 0 := by
  intro heq
  have h2 := congrArg (fun l => fromBe ((l.drop 1).take 4)) heq
  have hrhs : fromBe (((List.replicate 9 0).drop 1).take 4) = 0 := by decide
  have htake : ((f :: (beBytes 4 len ++ beBytes 4 m)).drop 1).take 4
      = beBytes 4 len := by
    simp only [List.drop_succ_cons, List.drop_zero]
    exact List.take_left' (length_beBytes 4 len)
  simp only [htake, hrhs] at h2
  rw [fromBe_beBytes_of_lt (by simpa using hlen)] at h2
  omega

theorem drop5_take4 (f len m : Nat) :
    ((f :: (beBytes 4 len ++ beBytes 4 m)).drop 5).take 4 = beBytes 4 m := by
  have h1 : ((f :: (beBytes 4 len ++ beBytes 4 m)).drop 5)
      = (beBytes 4 len ++ beBytes 4 m).drop 4 := by
    simp [List.drop_succ_cons]
  rw [h1, List.drop_left' (length_beBytes 4 len),
    List.take_of_length_le (by simp)]

theorem take4_body_len (f len m : Nat) :
    ((f :: (beBytes 4 len ++ beBytes 4 m)).drop 1).take 4 = beBytes 4 len := by
  simp only [List.drop_succ_cons, List.drop_zero]
  exact List.take_left' (length_beBytes 4 len)

theorem Muxrpc.muxrpc_parse_build_aux
    (f : Nat) (s e : Bool) (bt : BodyType) (len : Nat) (rn : Int)
    (hfrom : Muxrpc.BodyType.from_flags f = .ok bt)
    (hs : (f &&& IS_STREAM_MASK != 0) = s)
    (he : (f &&& IS_END_OR_ERROR_MASK != 0) = e)
    (hpos : 1 ≤ len) (hlen : len < 2 ^ 32)
    (hr1 : -(2 ^ 31) ≤ rn) (hr2 : rn < 2 ^ 31) (hrn : rn ≠ 0) :
    Muxrpc.Header.parse (f :: (beBytes 4 len ++ beBytes 4 (rn % 2 ^ 32).toNat))
      = .ok (some ⟨⟨s, e⟩, bt, len, rn⟩) := by
  have hne := build_ne_goodbye f len (rn % 2 ^ 32).toNat hpos hlen
  rw [Muxrpc.Header.parse, if_neg hne]
  simp only [List.headI, take4_body_len, drop5_take4, hfrom]
  rw [fromBe_beBytes4 _ (toNat_emod_lt rn), fromBe_beBytes4 _ hlen,
    decodeI32_emod rn hr1 hr2, if_neg hrn, hs, he]

theorem RpcBase.rpcbase_parse_build_aux
    (f : Nat) (s e : Bool) (bt : BodyType) (len : Nat) (rn : Int)
    (hfrom : RpcBase.BodyType.from_flags f = .ok bt)
    (hs : (f &&& IS_STREAM_MASK != 0) = s)
    (he : (f &&& IS_END_OR_ERROR_MASK != 0) = e)
    (hpos : 1 ≤ len) (hlen : len < 2 ^ 32)
    (hr1 : -(2 ^ 31) ≤ rn) (hr2 : rn < 2 ^ 31) :
    RpcBase.Header.parse (f :: (beBytes 4 len ++ beBytes 4 (rn % 2 ^ 32).toNat))
      = .ok (some ⟨⟨s, e⟩, bt, len, rn⟩) := by
  have hne := build_ne_goodbye f len (rn % 2 ^ 32).toNat hpos hlen
  rw [RpcBase.Header.parse, if_neg hne]
  simp only [List.headI, take4_body_len, drop5_take4, hfrom]
  rw [fromBe_beBytes4 _ (toNat_emod_lt rn), fromBe_beBytes4 _ hlen,
    decodeI32_emod rn hr1 hr2, hs, he]

/-- **C5.** For every RPC `Header` with a valid body type, any flags,
`body_len` in `[1, u32::MAX]` and `request_number ≠ 0`,
`Header::parse(Header::build(h))` returns `Ok(Some(h))` — in both the muxrpc
and the rpc/base codec — and `Header::parse` applied to the all-zero 9-byte
array returns `Ok(None)`, the RPC goodbye sentinel. -/
theorem header_parse_build_spec :
    (∀ h : Header, h.Wf → 1 ≤ h.body_len → h.request_number ≠ 0 →
      Muxrpc.Header.parse (Muxrpc.Header.build h) = .ok (some h) ∧
      RpcBase.Header.parse (RpcBase.Header.build h) = .ok (some h)) ∧
    Muxrpc.Header.parse (List.replicate 9 0) = .ok none ∧
    RpcBase.Header.parse (List.replicate 9 0) = .ok none := by
  refine ⟨?_, rfl, rfl⟩
  intro h hwf hpos hrn
  obtain ⟨⟨s, e⟩, bt, len, rn⟩ := h
  obtain ⟨hlen, hr1, hr2⟩ := hwf
  constructor
  · rw [Muxrpc.Header.build]
    cases bt <;> cases s <;> cases e <;>
      (refine Muxrpc.muxrpc_parse_build_aux _ _ _ _ _ _ ?_ ?_ ?_ hpos hlen hr1 hr2 hrn <;>
        (simp [Muxrpc.BodyType.from_flags, BodyType.toNat, IS_STREAM_MASK,
          IS_END_OR_ERROR_MASK]; try decide))
  · rw [RpcBase.Header.build]
    cases bt <;> cases s <;> cases e <;>
      (refine RpcBase.rpcbase_parse_build_aux _ _ _ _ _ _ ?_ ?_ ?_ hpos hlen hr1 hr2 <;>
        (simp [RpcBase.BodyType.from_flags, BodyType.toNat, IS_STREAM_MASK,
          IS_END_OR_ERROR_MASK]; try decide))

theorem header_parse_build_spec_witness :
    Muxrpc.Header.parse (Muxrpc.Header.build ⟨⟨true, false⟩, .Json, 5, -3⟩)
      = .ok (some ⟨⟨true, false⟩, .Json, 5, -3⟩) ∧
    RpcBase.Header.parse (RpcBase.Header.build ⟨⟨true, false⟩, .Json, 5, -3⟩)
      = .ok (some ⟨⟨true, false⟩, .Json, 5, -3⟩) :=
  header_parse_build_spec.1 ⟨⟨true, false⟩, .Json, 5, -3⟩
    (by refine ⟨by norm_num, by norm_num, by norm_num⟩) (by norm_num) (by norm_num)

/-- **C6 counterexample.** The claim asserts that `Header::parse` (citing
both src/muxrpc/src/header.rs and src/src/rpc/base/header.rs) returns
`RequestNumberZero` on a non-zero 9-byte array whose request-number field is
zero.  The rpc/base draft has no such check (its error type has no
`RequestNumberZero` variant at all): on `[0,0,0,0,1,0,0,0,0]` it returns
`Ok(Some(header))` with `request_number = 0`. -/
theorem rpcbase_parse_zero_request_number :
    RpcBase.Header.parse [0, 0, 0, 0, 1, 0, 0, 0, 0]
      = .ok (some ⟨⟨false, false⟩, .Binary, 1, 0⟩) := by rfl

/-- **C6 (amended).** The muxrpc `Header::parse` applied to any 9-byte array
that is not all zeros, whose flag byte encodes a valid body type (low two
bits ≠ 3), and whose last four bytes encode the integer 0, returns the error
`RequestNumberZero`; the rpc/base draft's `Header::parse` performs no such
check and instead returns `Ok(Some(header))` with `request_number = 0`. -/
theorem muxrpc_parse_request_number_zero (data : List Nat)
    (_hlen : data.length = 9) (hnz : data ≠ List.replicate 9 0)
    (hbt : data.headI &&& 3 ≠ 3)
    (hreq : fromBe ((data.drop 5).take 4) = 0) :
    Muxrpc.Header.parse data = .error .RequestNumberZero := by
  rw [Muxrpc.Header.parse, if_neg hnz]
  have h4 : data.headI &&& 3 < 4 :=
    Nat.lt_of_le_of_lt Nat.and_le_right (by norm_num)
  have h3 : data.headI &&& 3 = 0 ∨ data.headI &&& 3 = 1 ∨ data.headI &&& 3 = 2 := by
    omega
  have hrn : decodeI32 (fromBe ((data.drop 5).take 4)) = 0 := by
    rw [hreq]; decide
  rcases h3 with hv | hv | hv <;>
    simp only [Muxrpc.BodyType.from_flags, hv, hrn, if_pos rfl, if_true]

theorem muxrpc_parse_request_number_zero_witness :
    Muxrpc.Header.parse [0, 0, 0, 0, 1, 0, 0, 0, 0] = .error .RequestNumberZero :=
  muxrpc_parse_request_number_zero [0, 0, 0, 0, 1, 0, 0, 0, 0]
    (by decide) (by decide) (by decide) (by decide)

end RustSsb

namespace RustSsb

/-! ## Secretbox model

Modelled from the spec: `sodiumoxide`'s XSalsa20-Poly1305 `secretbox`
(spec §4.1: authenticated symmetric encryption keyed by a 32-byte key and a
24-byte nonce, producing a 16-byte tag; every `open*` fails exactly when
authentication fails, and `seal`'s output is the tag followed by a
ciphertext of the plaintext's length).  The crypto façade of ssb-box-stream
(`mod crypto`) is external library code not present under src/.  The model
is an idealized authenticated stream cipher: a keystream byte is a function
of key, nonce and position, and the tag is a 16-byte MAC over key, nonce
and ciphertext.  It is executable and satisfies exactly the interface
properties the spec states; it is of course not cryptographically secure,
which no claim here depends on. -/

def hashNat (l : List Nat) : Nat := l.foldl (fun a b => a * 257 + b + 1) 7

/-- Keystream byte `i` of the modelled stream cipher (before reduction
mod 256). -/
def ksByte (key nonce : List Nat) (i : Nat) : Nat :=
  hashNat (key ++ nonce) + i

/-- Encrypt bytes starting at stream position `i`. -/
def sbEncBytes (key nonce : List Nat) : Nat → List Nat → List Nat
  | _, [] => []
  | i, b :: rest => (b + ksByte key nonce i) % 256 :: sbEncBytes key nonce (i + 1) rest

/-- Decrypt bytes starting at stream position `i`. -/
def sbDecBytes (key nonce : List Nat) : Nat → List Nat → List Nat
  | _, [] => []
  | i, b :: rest =>
    (b + 256 - ksByte key nonce i % 256) % 256 :: sbDecBytes key nonce (i + 1) rest

/-- The 16-byte authentication tag over key, nonce and ciphertext. -/
def sbMac (key nonce c : List Nat) : List Nat :=
  beBytes 16 (hashNat (key ++ nonce ++ c))

/-- `secretbox::seal_detached`: returns the ciphertext (the encrypted
buffer) and the detached tag. -/
def sbSealDetached (m nonce key : List Nat) : List Nat × List Nat :=
  let c := sbEncBytes key nonce 0 m
  (c, sbMac key nonce c)

/-- `secretbox::open_detached`: authenticate, then decrypt in place. -/
def sbOpenDetached (c tag nonce key : List Nat) : Option (List Nat) :=
  if tag = sbMac key nonce c then some (sbDecBytes key nonce 0 c) else none

/-- `secretbox::seal`: tag followed by ciphertext. -/
def sbSeal (m nonce key : List Nat) : List Nat :=
  let cAndTag := sbSealDetached m nonce key
  cAndTag.2 ++ cAndTag.1

/-- `secretbox::open`. -/
def sbOpen (x nonce key : List Nat) : Option (List Nat) :=
  if 16 ≤ x.length then sbOpenDetached (x.drop 16) (x.take 16) nonce key else none

@[simp]
theorem length_sbEncBytes (key nonce : List Nat) (i : Nat) (m : List Nat) :
    (sbEncBytes key nonce i m).length = m.length := by
  induction m generalizing i with
  | nil => rfl
  | cons b rest ih => simp [sbEncBytes, ih]

@[simp]
theorem length_sbMac (key nonce c : List Nat) : (sbMac key nonce c).length = 16 := by
  simp [sbMac]

theorem isBytes_sbMac (key nonce c : List Nat) : IsBytes (sbMac key nonce c) :=
  isBytes_beBytes _ _

theorem sbDecBytes_sbEncBytes (key nonce : List Nat) (i : Nat) (m : List Nat)
    (h : IsBytes m) : sbDecBytes key nonce i (sbEncBytes key nonce i m) = m := by
  induction m generalizing i with
  | nil => rfl
  | cons b rest ih =>
    have hb : b < 256 := h b (List.mem_cons_self ..)
    have hrest : IsBytes rest := fun x hx => h x (List.mem_cons_of_mem _ hx)
    simp only [sbEncBytes, sbDecBytes, ih (i + 1) hrest, List.cons.injEq, and_true]
    omega

theorem sbOpenDetached_sbSealDetached (m nonce key : List Nat) (h : IsBytes m) :
    sbOpenDetached (sbSealDetached m nonce key).1 (sbSealDetached m nonce key).2
      nonce key = some m := by
  simp [sbOpenDetached, sbSealDetached, sbDecBytes_sbEncBytes key nonce 0 m h]

@[simp]
theorem length_sbSeal (m nonce key : List Nat) :
    (sbSeal m nonce key).length = 16 + m.length := by
  simp [sbSeal, sbSealDetached]

theorem sbOpen_sbSeal (m nonce key : List Nat) (h : IsBytes m) :
    sbOpen (sbSeal m nonce key) nonce key = some m := by
  have htake : (sbSeal m nonce key).take 16 = sbMac key nonce (sbEncBytes key nonce 0 m) := by
    simp only [sbSeal, sbSealDetached]
    exact List.take_left' (length_sbMac ..)
  have hdrop : (sbSeal m nonce key).drop 16 = sbEncBytes key nonce 0 m := by
    simp only [sbSeal, sbSealDetached]
    exact List.drop_left' (length_sbMac ..)
  rw [sbOpen, if_pos (by simp), htake, hdrop, sbOpenDetached, if_pos rfl,
    sbDecBytes_sbEncBytes key nonce 0 m h]

/-! ## Box-stream cipher (src/ssb-box-stream/src/cipher.rs)

`Params` carries the symmetric key and the nonce counter; the `&mut self`
methods of the Rust code return the updated `Params` explicitly.  Byte
buffers are `List Nat`. -/

/-- Size of the encrypted and authenticated header. -/
def BOXED_HEADER_SIZE : Nat := 34

/-- Size of the plain text header. -/
def HEADER_SIZE : Nat := 18

/-- The plain-text packet that indicates the end of the packet stream. -/
def GOODBYE_PACKET : List Nat := List.replicate HEADER_SIZE 0

/-- Maximum size of the payload of a packet. -/
def MAX_PACKET_SIZE_BYTES : Nat := 4 * 1024

structure Params where
  key : List Nat
  nonce : List Nat
deriving DecidableEq, Repr

/-- Calls `increment_be` on the nonce data. -/
def nonce_increment_be (nonce : List Nat) : List Nat := increment_be nonce

/-- `data.chunks(n)` of Rust's slices: split into consecutive chunks of at
most `n` elements (the last may be shorter); the empty slice has no chunks.
The fuel argument of the worker equals the list length, which suffices for
any chunk size `n ≥ 1`. -/
def chunksGo (n : Nat) : Nat → List Nat → List (List Nat)
  | 0, _ => []
  | _, [] => []
  | fuel + 1, b :: bs => (b :: bs).take n :: chunksGo n fuel ((b :: bs).drop n)

def chunks (n : Nat) (l : List Nat) : List (List Nat) := chunksGo n l.length l

/-- One packet: length-prefixed header sealed with the current nonce, body
sealed (detached) with the incremented nonce; afterwards the counter has
advanced by two. -/
def Params.encrypt_one (p : Params) (payload : List Nat) : List Nat × Params :=
  let body_len_bytes := beBytes 2 payload.length
  let header_nonce := p.nonce
  let body_nonce := nonce_increment_be header_nonce
  let sealed := sbSealDetached payload body_nonce p.key
  let header := body_len_bytes ++ sealed.2
  let boxed_header := sbSeal header header_nonce p.key
  (boxed_header ++ sealed.1, { p with nonce := nonce_increment_be body_nonce })

def encryptChunks : Params → List (List Nat) → List Nat × Params
  | p, [] => ([], p)
  | p, c :: cs =>
    let one := p.encrypt_one c
    let rest := encryptChunks one.2 cs
    (one.1 ++ rest.1, rest.2)

/-- `Params::encrypt`: split the payload at `MAX_PACKET_SIZE_BYTES`
boundaries and emit each chunk as one packet. -/
def Params.encrypt (p : Params) (data : List Nat) : List Nat × Params :=
  encryptChunks p (chunks MAX_PACKET_SIZE_BYTES data)

/-- `Params::goodbye`: seal the all-zero header with the current nonce; the
nonce is not advanced. -/
def Params.goodbye (p : Params) : List Nat × Params :=
  (sbSeal GOODBYE_PACKET p.nonce p.key, p)

/-- `Params::decrypt_header`.  `Ok(None)` signals the goodbye packet. -/
def Params.decrypt_header (p : Params) (boxed_header : List Nat) :
    Except Unit (Option (Nat × List Nat)) × Params :=
  let header_nonce := p.nonce
  match sbOpen boxed_header header_nonce p.key with
  | none => (.error (), p)
  | some header =>
    if header = GOODBYE_PACKET then (.ok none, p)
    else
      let body_len := fromBe (header.take 2)
      let body_tag := header.drop 2
      (.ok (some (body_len, body_tag)), { p with nonce := nonce_increment_be header_nonce })

/-- `Params::decrypt_body`. -/
def Params.decrypt_body (p : Params) (tag cipher_body : List Nat) :
    Except Unit (List Nat) × Params :=
  let body_nonce := p.nonce
  match sbOpenDetached cipher_body tag body_nonce p.key with
  | none => (.error (), p)
  | some body => (.ok body, { p with nonce := nonce_increment_be body_nonce })

end RustSsb

namespace RustSsb

/-! ## Decrypt stream header handling (src/ssb-box-stream/src/decrypt.rs)

`poll_next_inner`'s `ReadingHeader` arm, once the 34-byte buffer is full:
decrypt the header; on failure the fatal error is `UnboxHeader`; on goodbye
the stream closes; otherwise the announced length is checked against
`MAX_PACKET_SIZE_BYTES` (the code errors when `len >= MAX_PACKET_SIZE_BYTES`)
before entering `ReadingBody`. -/

inductive DecryptError where
  | Io
  | UnboxBody
  | UnboxHeader
  | ExceededMaxPacketSize
deriving DecidableEq, Repr

inductive HeaderStep where
  | goodbye
  | fatal (e : DecryptError)
  | readBody (auth_tag : List Nat) (len : Nat)
deriving DecidableEq, Repr

def Decrypt.handle_header (p : Params) (boxed_header : List Nat) :
    HeaderStep × Params :=
  match p.decrypt_header boxed_header with
  | (.error _, p1) => (.fatal .UnboxHeader, p1)
  | (.ok none, p1) => (.goodbye, p1)
  | (.ok (some (len, auth_tag)), p1) =>
    if MAX_PACKET_SIZE_BYTES ≤ len then (.fatal .ExceededMaxPacketSize, p1)
    else (.readBody auth_tag len, p1)

/-! ## Claim C9: the nonce counter moves only on success -/

/-- **C9.** A failed `decrypt_header` or `decrypt_body`, a `decrypt_header`
returning the goodbye indication `Ok(None)`, and `goodbye` all leave the
cipher state unchanged; the nonce advances (by one increment) exactly on a
successful non-goodbye header decryption and on a successful body
decryption, the key never changing. -/
theorem nonce_advance_spec :
    (∀ (p : Params) (bh : List Nat),
      (p.decrypt_header bh).1 = .error () → (p.decrypt_header bh).2 = p) ∧
    (∀ (p : Params) (bh : List Nat),
      (p.decrypt_header bh).1 = .ok none → (p.decrypt_header bh).2 = p) ∧
    (∀ (p : Params) (tag cb : List Nat),
      (p.decrypt_body tag cb).1 = .error () → (p.decrypt_body tag cb).2 = p) ∧
    (∀ p : Params, (p.goodbye).2 = p) ∧
    (∀ (p : Params) (bh : List Nat) (len : Nat) (tag : List Nat),
      (p.decrypt_header bh).1 = .ok (some (len, tag)) →
      (p.decrypt_header bh).2 = { p with nonce := increment_be p.nonce }) ∧
    (∀ (p : Params) (tag cb body : List Nat),
      (p.decrypt_body tag cb).1 = .ok body →
      (p.decrypt_body tag cb).2 = { p with nonce := increment_be p.nonce }) := by
  refine ⟨?_, ?_, ?_, fun p => rfl, ?_, ?_⟩
  · intro p bh h
    cases hm : sbOpen bh p.nonce p.key with
    | none => simp [Params.decrypt_header, hm]
    | some header =>
      by_cases hg : header = GOODBYE_PACKET <;>
        simp [Params.decrypt_header, hm, hg] at h
  · intro p bh h
    cases hm : sbOpen bh p.nonce p.key with
    | none => simp [Params.decrypt_header, hm] at h
    | some header =>
      by_cases hg : header = GOODBYE_PACKET
      · simp [Params.decrypt_header, hm, hg]
      · simp [Params.decrypt_header, hm, hg] at h
  · intro p tag cb h
    cases hm : sbOpenDetached cb tag p.nonce p.key with
    | none => simp [Params.decrypt_body, hm]
    | some body => simp [Params.decrypt_body, hm] at h
  · intro p bh len tag h
    cases hm : sbOpen bh p.nonce p.key with
    | none => simp [Params.decrypt_header, hm] at h
    | some header =>
      by_cases hg : header = GOODBYE_PACKET
      · simp [Params.decrypt_header, hm, hg] at h
      · simp [Params.decrypt_header, hm, hg, nonce_increment_be]
  · intro p tag cb body h
    cases hm : sbOpenDetached cb tag p.nonce p.key with
    | none => simp [Params.decrypt_body, hm] at h
    | some b => simp [Params.decrypt_body, hm, nonce_increment_be]

theorem nonce_advance_spec_witness :
    ((Params.mk (List.replicate 32 0) (List.replicate 24 0)).decrypt_header
        (List.replicate 34 1)).2
      = Params.mk (List.replicate 32 0) (List.replicate 24 0) ∧
    ((Params.mk (List.replicate 32 0) (List.replicate 24 0)).decrypt_header
        ((Params.mk (List.replicate 32 0) (List.replicate 24 0)).goodbye).1).2
      = Params.mk (List.replicate 32 0) (List.replicate 24 0) ∧
    ((Params.mk (List.replicate 32 0) (List.replicate 24 0)).decrypt_body
        (List.replicate 16 0) [1]).2
      = Params.mk (List.replicate 32 0) (List.replicate 24 0) ∧
    ((Params.mk (List.replicate 32 0) (List.replicate 24 0)).decrypt_header
        (((Params.mk (List.replicate 32 0) (List.replicate 24 0)).encrypt_one
          [1]).1.take 34)).2
      = { Params.mk (List.replicate 32 0) (List.replicate 24 0) with
          nonce := increment_be (List.replicate 24 0) } :=
  ⟨nonce_advance_spec.1 _ _ (by decide),
   nonce_advance_spec.2.1 _ _ (by decide),
   nonce_advance_spec.2.2.1 _ _ _ (by decide),
   nonce_advance_spec.2.2.2.2.1 _ _
     (fromBe [0, 1])
     ((sbSealDetached [1] (increment_be (List.replicate 24 0)) (List.replicate 32 0)).2)
     (by decide)⟩

/-! ## Claim C10: empty payloads -/

/-- **C10.** `Params::encrypt` applied to the empty byte slice emits no
bytes and leaves the cipher state unchanged; and every chunk the encryptor
would emit as a packet body (`data.chunks(4096)`) is nonempty, so no packet
with a zero-length body is ever produced. -/
theorem encrypt_empty_spec :
    (∀ p : Params, p.encrypt [] = ([], p)) ∧
    (∀ (data : List Nat) (c : List Nat),
      c ∈ chunks MAX_PACKET_SIZE_BYTES data → c ≠ []) := by
  constructor
  · intro p; rfl
  · intro data c hc
    rw [chunks] at hc
    generalize hfuel : data.length = fuel at hc
    clear hfuel
    induction fuel generalizing data with
    | zero => simp [chunksGo] at hc
    | succ fuel ih =>
      cases data with
      | nil => simp [chunksGo] at hc
      | cons b bs =>
        simp only [chunksGo, List.mem_cons] at hc
        rcases hc with hc | hc
        · subst hc
          simp [MAX_PACKET_SIZE_BYTES]
        · exact ih _ hc

theorem encrypt_empty_spec_witness :
    (Params.mk (List.replicate 32 3) (List.replicate 24 5)).encrypt []
      = ([], Params.mk (List.replicate 32 3) (List.replicate 24 5)) ∧
    [1, 2] ≠ ([] : List Nat) :=
  ⟨encrypt_empty_spec.1 _,
   encrypt_empty_spec.2 [1, 2] [1, 2] (by decide)⟩

end RustSsb

namespace RustSsb

/-! ## Box-stream round trip (claim C1)

Decryption of a byte stream produced by the encryptor, exactly as the
cipher round-trip test drives it: repeatedly take 34 bytes, call
`decrypt_header`, then take the announced number of bytes and call
`decrypt_body`.  The worker recurses on fuel (one unit per packet);
`decryptPackets` passes the byte count as fuel, which always suffices since
every packet occupies at least 34 bytes. -/

@[simp]
theorem sbSealDetached_fst (m nonce key : List Nat) :
    (sbSealDetached m nonce key).1 = sbEncBytes key nonce 0 m := rfl

@[simp]
theorem sbSealDetached_snd (m nonce key : List Nat) :
    (sbSealDetached m nonce key).2 = sbMac key nonce (sbEncBytes key nonce 0 m) := rfl

def decryptPacketsGo : Nat → Params → List Nat → Option (List (List Nat))
  | 0, _, bytes => if bytes = [] then some [] else none
  | fuel + 1, p, bytes =>
    if bytes = [] then some []
    else if bytes.length < BOXED_HEADER_SIZE then none
    else
      match p.decrypt_header (bytes.take BOXED_HEADER_SIZE) with
      | (.error _, _) => none
      | (.ok none, _) => some []
      | (.ok (some (len, tag)), p1) =>
        let rest := bytes.drop BOXED_HEADER_SIZE
        if rest.length < len then none
        else
          match p1.decrypt_body tag (rest.take len) with
          | (.error _, _) => none
          | (.ok payload, p2) =>
            (decryptPacketsGo fuel p2 (rest.drop len)).map (payload :: ·)

def decryptPackets (p : Params) (bytes : List Nat) : Option (List (List Nat)) :=
  decryptPacketsGo bytes.length p bytes

/-- Encrypt a sequence of payloads in order, each with `Params::encrypt`. -/
def encryptAll : Params → List (List Nat) → List Nat × Params
  | p, [] => ([], p)
  | p, d :: ds =>
    let one := p.encrypt d
    let rest := encryptAll one.2 ds
    (one.1 ++ rest.1, rest.2)

@[simp]
theorem decryptPacketsGo_nil (fuel : Nat) (p : Params) :
    decryptPacketsGo fuel p [] = some [] := by
  cases fuel <;> simp [decryptPacketsGo]

theorem length_encrypt_one (p : Params) (c : List Nat) :
    (p.encrypt_one c).1.length = BOXED_HEADER_SIZE + c.length := by
  simp [Params.encrypt_one, BOXED_HEADER_SIZE]

/-- Decrypting the boxed header produced by `encrypt_one` succeeds, is not
mistaken for a goodbye, announces the payload length and the body tag, and
advances the nonce by one. -/
theorem decrypt_header_boxed (p : Params) (c : List Nat) (hne : c ≠ [])
    (hlen : c.length < 65536) :
    p.decrypt_header
        (sbSeal (beBytes 2 c.length
            ++ sbMac p.key (nonce_increment_be p.nonce)
                 (sbEncBytes p.key (nonce_increment_be p.nonce) 0 c))
          p.nonce p.key)
      = (.ok (some (c.length, sbMac p.key (nonce_increment_be p.nonce)
            (sbEncBytes p.key (nonce_increment_be p.nonce) 0 c))),
         { p with nonce := nonce_increment_be p.nonce }) := by
  set T := sbMac p.key (nonce_increment_be p.nonce)
    (sbEncBytes p.key (nonce_increment_be p.nonce) 0 c) with hT
  set H := beBytes 2 c.length ++ T with hH
  have hHbytes : IsBytes H := by
    intro b hbm
    rcases List.mem_append.mp hbm with h1 | h1
    · exact isBytes_beBytes _ _ b h1
    · exact (hT ▸ isBytes_sbMac _ _ _) b h1
  have hopen := sbOpen_sbSeal H p.nonce p.key hHbytes
  have htake2 : H.take 2 = beBytes 2 c.length := List.take_left' (length_beBytes 2 _)
  have hfrom : fromBe (H.take 2) = c.length := by
    rw [htake2]
    exact fromBe_beBytes_of_lt (by rw [show (256 : Nat) ^ 2 = 65536 by norm_num]; exact hlen)
  have hng : H ≠ GOODBYE_PACKET := by
    intro hg
    have h0 : fromBe (GOODBYE_PACKET.take 2) = 0 := by decide
    rw [hg] at hfrom
    rw [hfrom] at h0
    exact hne (List.length_eq_zero.mp h0)
  have hdrop2 : H.drop 2 = T := List.drop_left' (length_beBytes 2 _)
  simp only [Params.decrypt_header, hopen, if_neg hng, hfrom, hdrop2]

theorem decrypt_body_sealed (k n c : List Nat) (hb : IsBytes c) :
    (Params.mk k n).decrypt_body (sbMac k n (sbEncBytes k n 0 c))
        (sbEncBytes k n 0 c)
      = (.ok c, Params.mk k (nonce_increment_be n)) := by
  simp [Params.decrypt_body, sbOpenDetached, sbDecBytes_sbEncBytes k n 0 c hb]

/-- One encrypted packet in front of arbitrary trailing bytes decrypts to
its payload and hands the remaining bytes to the same state the encryptor
reached. -/
theorem decryptGo_step (fuel : Nat) (p : Params) (c rest : List Nat)
    (hne : c ≠ []) (hlen : c.length < 65536) (hb : IsBytes c) :
    decryptPacketsGo (fuel + 1) p ((p.encrypt_one c).1 ++ rest)
      = (decryptPacketsGo fuel (p.encrypt_one c).2 rest).map (c :: ·) := by
  have hbh : (sbSeal (beBytes 2 c.length
      ++ sbMac p.key (nonce_increment_be p.nonce)
           (sbEncBytes p.key (nonce_increment_be p.nonce) 0 c))
      p.nonce p.key).length = BOXED_HEADER_SIZE := by
    simp [BOXED_HEADER_SIZE]
  have h1 : (p.encrypt_one c).1
      = sbSeal (beBytes 2 c.length
          ++ sbMac p.key (nonce_increment_be p.nonce)
               (sbEncBytes p.key (nonce_increment_be p.nonce) 0 c))
          p.nonce p.key
        ++ sbEncBytes p.key (nonce_increment_be p.nonce) 0 c := rfl
  have h2 : (p.encrypt_one c).2
      = { p with nonce := nonce_increment_be (nonce_increment_be p.nonce) } := rfl
  rw [h1, h2, List.append_assoc]
  have hnenil : (sbSeal (beBytes 2 c.length
      ++ sbMac p.key (nonce_increment_be p.nonce)
           (sbEncBytes p.key (nonce_increment_be p.nonce) 0 c))
      p.nonce p.key
        ++ (sbEncBytes p.key (nonce_increment_be p.nonce) 0 c ++ rest)) ≠ [] := by
    intro hg
    have h3 := (List.append_eq_nil.mp hg).1
    have h4 := congrArg List.length h3
    rw [hbh] at h4
    simp [BOXED_HEADER_SIZE] at h4
  have hlen34 : ¬ ((sbSeal (beBytes 2 c.length
      ++ sbMac p.key (nonce_increment_be p.nonce)
           (sbEncBytes p.key (nonce_increment_be p.nonce) 0 c))
      p.nonce p.key
        ++ (sbEncBytes p.key (nonce_increment_be p.nonce) 0 c ++ rest)).length
        < BOXED_HEADER_SIZE) := by
    simp [BOXED_HEADER_SIZE]
  have hbodylen : ¬ ((sbEncBytes p.key (nonce_increment_be p.nonce) 0 c
      ++ rest).length < c.length) := by
    simp
  rw [decryptPacketsGo, if_neg hnenil, if_neg hlen34, List.take_left' hbh,
    decrypt_header_boxed p c hne hlen, List.drop_left' hbh]
  dsimp only
  rw [if_neg hbodylen, List.take_left' (length_sbEncBytes ..),
    decrypt_body_sealed p.key (nonce_increment_be p.nonce) c hb]
  dsimp only
  rw [List.drop_left' (length_sbEncBytes ..)]

theorem decryptGo_encryptChunks (cs : List (List Nat)) :
    ∀ (p : Params) (rest : List Nat) (fuel : Nat),
    (∀ c ∈ cs, c ≠ [] ∧ c.length < 65536 ∧ IsBytes c) →
    decryptPacketsGo (fuel + cs.length) p ((encryptChunks p cs).1 ++ rest)
      = (decryptPacketsGo fuel (encryptChunks p cs).2 rest).map (cs ++ ·) := by
  induction cs with
  | nil =>
    intro p rest fuel _
    simp [encryptChunks]
  | cons c cs ih =>
    intro p rest fuel h
    obtain ⟨hne, hlen, hb⟩ := h c (List.mem_cons_self ..)
    have hrest : ∀ x ∈ cs, x ≠ [] ∧ x.length < 65536 ∧ IsBytes x :=
      fun x hx => h x (List.mem_cons_of_mem _ hx)
    have hchunks1 : (encryptChunks p (c :: cs)).1
        = (p.encrypt_one c).1 ++ (encryptChunks (p.encrypt_one c).2 cs).1 := rfl
    have hchunks2 : (encryptChunks p (c :: cs)).2
        = (encryptChunks (p.encrypt_one c).2 cs).2 := rfl
    have harith : fuel + (c :: cs).length = (fuel + cs.length) + 1 := by
      simp [List.length_cons]
      omega
    rw [hchunks1, hchunks2, List.append_assoc, harith,
      decryptGo_step (fuel + cs.length) p c _ hne hlen hb,
      ih (p.encrypt_one c).2 rest fuel hrest, Option.map_map]
    rfl

theorem length_encryptChunks_ge (p : Params) (cs : List (List Nat)) :
    cs.length ≤ (encryptChunks p cs).1.length := by
  induction cs generalizing p with
  | nil => simp [encryptChunks]
  | cons c cs ih =>
    have : (encryptChunks p (c :: cs)).1
        = (p.encrypt_one c).1 ++ (encryptChunks (p.encrypt_one c).2 cs).1 := rfl
    rw [this]
    have h1 := length_encrypt_one p c
    have h2 := ih (p.encrypt_one c).2
    simp only [List.length_append, List.length_cons, h1, BOXED_HEADER_SIZE]
    omega

theorem encryptAll_eq_encryptChunks (p : Params) (payloads : List (List Nat)) :
    encryptAll p payloads
      = encryptChunks p (payloads.flatMap (chunks MAX_PACKET_SIZE_BYTES)) := by
  induction payloads generalizing p with
  | nil => rfl
  | cons d ds ih =>
    have happ : ∀ (q : Params) (as bs : List (List Nat)),
        encryptChunks q (as ++ bs)
          = ((encryptChunks q as).1 ++ (encryptChunks (encryptChunks q as).2 bs).1,
             (encryptChunks (encryptChunks q as).2 bs).2) := by
      intro q as bs
      induction as generalizing q with
      | nil => simp [encryptChunks]
      | cons a as iha =>
        rw [List.cons_append]
        show encryptChunks q (a :: (as ++ bs)) = _
        simp only [encryptChunks]
        rw [iha]
        simp [List.append_assoc]
    simp only [List.flatMap_cons, encryptAll, Params.encrypt, ih, happ]

end RustSsb

namespace RustSsb

theorem chunksGo_mem (n : Nat) (hn : 1 ≤ n) :
    ∀ (fuel : Nat) (l c : List Nat), c ∈ chunksGo n fuel l →
      c ≠ [] ∧ c.length ≤ n ∧ ∀ b ∈ c, b ∈ l := by
  intro fuel
  induction fuel with
  | zero => intro l c hc; simp [chunksGo] at hc
  | succ fuel ih =>
    intro l c hc
    cases l with
    | nil => simp [chunksGo] at hc
    | cons b bs =>
      simp only [chunksGo, List.mem_cons] at hc
      rcases hc with hc | hc
      · subst hc
        refine ⟨?_, ?_, fun b' hb' => List.mem_of_mem_take hb'⟩
        · cases n with
          | zero => omega
          | succ m => simp [List.take]
        · exact List.length_take_le n _
      · obtain ⟨h1, h2, h3⟩ := ih _ _ hc
        exact ⟨h1, h2, fun b' hb' => List.mem_of_mem_drop (h3 b' hb')⟩

theorem chunksGo_flatten (n : Nat) (hn : 1 ≤ n) :
    ∀ (fuel : Nat) (l : List Nat), l.length ≤ fuel →
      (chunksGo n fuel l).flatten = l := by
  intro fuel
  induction fuel with
  | zero =>
    intro l hl
    have : l = [] := List.length_eq_zero.mp (by omega)
    subst this
    simp [chunksGo]
  | succ fuel ih =>
    intro l hl
    cases l with
    | nil => simp [chunksGo]
    | cons b bs =>
      have hlen2 : ((b :: bs).drop n).length ≤ fuel := by
        simp only [List.length_drop, List.length_cons]
        simp only [List.length_cons] at hl
        omega
      simp only [chunksGo, List.flatten_cons]
      rw [ih ((b :: bs).drop n) hlen2]
      exact List.take_append_drop n (b :: bs)

/-- **C1.** For every finite sequence of nonempty byte payloads and every
starting cipher state, encrypting the payloads in order with
`Params::encrypt` and then decrypting the produced bytes with
`Params::decrypt_header` and `Params::decrypt_body` from an identical copy
of the state yields exactly the original payloads in order, a payload
longer than 4096 bytes being split at 4096-byte boundaries into consecutive
packets whose bodies concatenate back to the original payload. -/
theorem box_stream_roundtrip_spec (p : Params) (payloads : List (List Nat))
    (hne : ∀ d ∈ payloads, d ≠ []) (hb : ∀ d ∈ payloads, IsBytes d) :
    decryptPackets p (encryptAll p payloads).1
        = some (payloads.flatMap (chunks MAX_PACKET_SIZE_BYTES))
    ∧ (∀ d ∈ payloads, (chunks MAX_PACKET_SIZE_BYTES d).flatten = d)
    ∧ ((∀ d ∈ payloads, d.length ≤ MAX_PACKET_SIZE_BYTES) →
        payloads.flatMap (chunks MAX_PACKET_SIZE_BYTES) = payloads) := by
  have hchunks_of_le : ∀ l : List Nat, l ≠ [] → l.length ≤ MAX_PACKET_SIZE_BYTES →
      chunks MAX_PACKET_SIZE_BYTES l = [l] := by
    intro l hlne hle
    have hgonil : ∀ fuel, chunksGo MAX_PACKET_SIZE_BYTES fuel ([] : List Nat) = [] := by
      intro fuel
      cases fuel <;> rfl
    cases l with
    | nil => exact absurd rfl hlne
    | cons b bs =>
      rw [chunks]
      simp only [List.length_cons, chunksGo]
      rw [List.take_of_length_le (by simpa using hle),
        List.drop_eq_nil_of_le (by simpa using hle), hgonil]
  refine ⟨?_, ?_, ?_⟩
  rotate_right
  · intro hle
    induction payloads with
    | nil => rfl
    | cons d ds ih =>
      rw [List.flatMap_cons,
        hchunks_of_le d (hne d (List.mem_cons_self ..)) (hle d (List.mem_cons_self ..)),
        ih (fun x hx => hne x (List.mem_cons_of_mem _ hx))
          (fun x hx => hb x (List.mem_cons_of_mem _ hx))
          (fun x hx => hle x (List.mem_cons_of_mem _ hx))]
      rfl
  · have hmax : (1 : Nat) ≤ MAX_PACKET_SIZE_BYTES := by norm_num [MAX_PACKET_SIZE_BYTES]
    have hcs : ∀ c ∈ payloads.flatMap (chunks MAX_PACKET_SIZE_BYTES),
        c ≠ [] ∧ c.length < 65536 ∧ IsBytes c := by
      intro c hc
      obtain ⟨d, hd, hcd⟩ := List.mem_flatMap.mp hc
      obtain ⟨h1, h2, h3⟩ := chunksGo_mem MAX_PACKET_SIZE_BYTES hmax _ _ _ hcd
      refine ⟨h1, ?_, fun b hbmem => hb d hd b (h3 b hbmem)⟩
      have : MAX_PACKET_SIZE_BYTES = 4096 := rfl
      omega
    rw [encryptAll_eq_encryptChunks, decryptPackets]
    have hge := length_encryptChunks_ge p (payloads.flatMap (chunks MAX_PACKET_SIZE_BYTES))
    have hstep := decryptGo_encryptChunks (payloads.flatMap (chunks MAX_PACKET_SIZE_BYTES)) p []
      ((encryptChunks p (payloads.flatMap (chunks MAX_PACKET_SIZE_BYTES))).1.length
        - (payloads.flatMap (chunks MAX_PACKET_SIZE_BYTES)).length) hcs
    rw [List.append_nil, decryptPacketsGo_nil] at hstep
    have harith : (encryptChunks p (payloads.flatMap (chunks MAX_PACKET_SIZE_BYTES))).1.length
        = ((encryptChunks p (payloads.flatMap (chunks MAX_PACKET_SIZE_BYTES))).1.length
            - (payloads.flatMap (chunks MAX_PACKET_SIZE_BYTES)).length)
          + (payloads.flatMap (chunks MAX_PACKET_SIZE_BYTES)).length := by omega
    rw [harith, hstep]
    simp
  · intro d hd
    rw [chunks]
    exact chunksGo_flatten MAX_PACKET_SIZE_BYTES
      (by norm_num [MAX_PACKET_SIZE_BYTES]) d.length d le_rfl

theorem box_stream_roundtrip_spec_witness :
    decryptPackets (Params.mk (List.replicate 32 0) (List.replicate 24 0))
        (encryptAll (Params.mk (List.replicate 32 0) (List.replicate 24 0))
          [[1], [2, 3]]).1
        = some ([[1], [2, 3]].flatMap (chunks MAX_PACKET_SIZE_BYTES))
    ∧ (∀ d ∈ [[1], [2, 3]], (chunks MAX_PACKET_SIZE_BYTES d).flatten = d)
    ∧ ((∀ d ∈ [[1], [2, 3]], d.length ≤ MAX_PACKET_SIZE_BYTES) →
        [[1], [2, 3]].flatMap (chunks MAX_PACKET_SIZE_BYTES) = [[1], [2, 3]]) :=
  box_stream_roundtrip_spec _ _ (by decide) (by decide)

/-- **C3 (code bug).** The claim (and spec §4.3: "require `len ≤ 4096`, else
fatal `ExceededMaxPacketSize`") says the `Decrypt` stream reads the body
whenever `len ≤ 4096`.  The code in decrypt.rs tests
`len >= MAX_PACKET_SIZE_BYTES`, so a successfully decrypted header
announcing exactly `len = 4096` — which the encryptor itself produces for
every 4096-byte chunk of a large payload — is rejected with
`ExceededMaxPacketSize`. -/
theorem decrypt_max_packet_code_bug (p : Params) (c : List Nat)
    (hlen : c.length = 4096) (hb : IsBytes c) :
    (p.decrypt_header ((p.encrypt_one c).1.take BOXED_HEADER_SIZE)).1
        = .ok (some (c.length, sbMac p.key (nonce_increment_be p.nonce)
            (sbEncBytes p.key (nonce_increment_be p.nonce) 0 c)))
    ∧ (Decrypt.handle_header p ((p.encrypt_one c).1.take BOXED_HEADER_SIZE)).1
        = .fatal .ExceededMaxPacketSize := by
  have hne : c ≠ [] := by
    intro h
    rw [h] at hlen
    simp at hlen
  have h1 : (p.encrypt_one c).1
      = sbSeal (beBytes 2 c.length
          ++ sbMac p.key (nonce_increment_be p.nonce)
               (sbEncBytes p.key (nonce_increment_be p.nonce) 0 c))
          p.nonce p.key
        ++ sbEncBytes p.key (nonce_increment_be p.nonce) 0 c := rfl
  have htake : (p.encrypt_one c).1.take BOXED_HEADER_SIZE
      = sbSeal (beBytes 2 c.length
          ++ sbMac p.key (nonce_increment_be p.nonce)
               (sbEncBytes p.key (nonce_increment_be p.nonce) 0 c))
          p.nonce p.key := by
    rw [h1]
    exact List.take_left' (by simp [BOXED_HEADER_SIZE])
  have hdh := decrypt_header_boxed p c hne (by omega)
  constructor
  · rw [htake, hdh]
  · rw [Decrypt.handle_header, htake, hdh]
    have hcond : MAX_PACKET_SIZE_BYTES ≤ c.length := by
      rw [hlen]
      norm_num [MAX_PACKET_SIZE_BYTES]
    dsimp only
    rw [if_pos hcond]

theorem decrypt_max_packet_code_bug_witness :
    (Decrypt.handle_header (Params.mk (List.replicate 32 0) (List.replicate 24 0))
        (((Params.mk (List.replicate 32 0) (List.replicate 24 0)).encrypt_one
          (List.replicate 4096 7)).1.take BOXED_HEADER_SIZE)).1
      = .fatal .ExceededMaxPacketSize :=
  (decrypt_max_packet_code_bug _ (List.replicate 4096 7)
    (List.length_replicate 4096 7)
    (fun b hbm => by rw [List.eq_of_mem_replicate hbm]; norm_num)).2

end RustSsb

namespace RustSsb

/-! ## JSON model

Modelled from the spec: `serde_json` (external library).  RPC packet bodies
carry JSON produced by `serde_json::to_vec` and consumed by
`serde_json::from_slice` (spec §3, §4.5).  `Json` models
`serde_json::Value` with numbers restricted to integers (the spec's wire
examples use integers; `f64` formatting is outside the shallow embedding);
strings are their UTF-8 byte lists.  `Json.encode` is serde_json's compact
canonical encoding (including its string-escape table); the parser below
accepts exactly the canonical encodings — a subset of what serde_json
accepts, agreeing with it on every encoder output, which is all the
round-trip claims consume. -/

inductive Json where
  | null
  | bool (b : Bool)
  | num (n : Int)
  | str (s : List Nat)
  | arr (items : List Json)
  | obj (fields : List (List Nat × Json))

def hexDigit (n : Nat) : Nat := if n < 10 then 48 + n else 87 + n

/-- serde_json's escape table: `"` and `\` escaped, the five short control
escapes, `\u00XX` (lowercase hex) for other control bytes, everything else
verbatim. -/
def escapeByte (b : Nat) : List Nat :=
  if b = 34 then [92, 34]
  else if b = 92 then [92, 92]
  else if b = 8 then [92, 98]
  else if b = 9 then [92, 116]
  else if b = 10 then [92, 110]
  else if b = 12 then [92, 102]
  else if b = 13 then [92, 114]
  else if b < 32 then [92, 117, 48, 48, hexDigit (b / 16), hexDigit (b % 16)]
  else [b]

def escapeBytes (s : List Nat) : List Nat := s.flatMap escapeByte

def natDigits (n : Nat) : List Nat :=
  if h : n < 10 then [48 + n]
  else natDigits (n / 10) ++ [48 + n % 10]
termination_by n
decreasing_by exact Nat.div_lt_self (by omega) (by norm_num)

def intBytes (n : Int) : List Nat :=
  if n < 0 then 45 :: natDigits (-n).toNat else natDigits n.toNat

mutual
def Json.encode : Json → List Nat
  | .null => [110, 117, 108, 108]
  | .bool true => [116, 114, 117, 101]
  | .bool false => [102, 97, 108, 115, 101]
  | .num n => intBytes n
  | .str s => 34 :: (escapeBytes s ++ [34])
  | .arr items => 91 :: (encodeItems items ++ [93])
  | .obj fields => 123 :: (encodeFields fields ++ [125])

def encodeItems : List Json → List Nat
  | [] => []
  | [v] => v.encode
  | v :: rest => v.encode ++ 44 :: encodeItems rest

def encodeFields : List (List Nat × Json) → List Nat
  | [] => []
  | [(k, v)] => 34 :: (escapeBytes k ++ [34, 58]) ++ v.encode
  | (k, v) :: rest =>
    34 :: (escapeBytes k ++ [34, 58]) ++ v.encode ++ 44 :: encodeFields rest
end

def hexVal (x : Nat) : Option Nat :=
  if 48 ≤ x ∧ x ≤ 57 then some (x - 48)
  else if 97 ≤ x ∧ x ≤ 102 then some (x - 87)
  else if 65 ≤ x ∧ x ≤ 70 then some (x - 55)
  else none

/-- Parse the contents of a JSON string up to and including the closing
quote, undoing the escapes `Json.encode` emits. -/
def parseStringBody : List Nat → Option (List Nat × List Nat)
  | [] => none
  | b :: rest =>
    if b = 34 then some ([], rest)
    else if b = 92 then
      match rest with
      | [] => none
      | e :: rest2 =>
        if e = 34 then (parseStringBody rest2).map (fun sr => (34 :: sr.1, sr.2))
        else if e = 92 then (parseStringBody rest2).map (fun sr => (92 :: sr.1, sr.2))
        else if e = 98 then (parseStringBody rest2).map (fun sr => (8 :: sr.1, sr.2))
        else if e = 116 then (parseStringBody rest2).map (fun sr => (9 :: sr.1, sr.2))
        else if e = 110 then (parseStringBody rest2).map (fun sr => (10 :: sr.1, sr.2))
        else if e = 102 then (parseStringBody rest2).map (fun sr => (12 :: sr.1, sr.2))
        else if e = 114 then (parseStringBody rest2).map (fun sr => (13 :: sr.1, sr.2))
        else if e = 117 then
          match rest2 with
          | h1 :: h2 :: h3 :: h4 :: rest3 =>
            match hexVal h1, hexVal h2, hexVal h3, hexVal h4 with
            | some a, some b2, some c, some d =>
              let val := a * 4096 + b2 * 256 + c * 16 + d
              if val < 128 then
                (parseStringBody rest3).map (fun sr => (val :: sr.1, sr.2))
              else none
            | _, _, _, _ => none
          | _ => none
        else none
    else (parseStringBody rest).map (fun sr => (b :: sr.1, sr.2))

def takeDigits : List Nat → List Nat × List Nat
  | [] => ([], [])
  | b :: rest =>
    if 48 ≤ b ∧ b ≤ 57 then
      let dr := takeDigits rest
      (b :: dr.1, dr.2)
    else ([], b :: rest)

def digitsVal (ds : List Nat) : Nat := ds.foldl (fun a d => a * 10 + (d - 48)) 0

def parseNumber : List Nat → Option (Int × List Nat)
  | [] => none
  | b :: rest =>
    if b = 45 then
      let dr := takeDigits rest
      if dr.1 = [] then none else some (-(digitsVal dr.1 : Int), dr.2)
    else
      let dr := takeDigits (b :: rest)
      if dr.1 = [] then none else some ((digitsVal dr.1 : Int), dr.2)

def isNumStart : List Nat → Bool
  | [] => false
  | b :: _ => b = 45 || (decide (48 ≤ b) && decide (b ≤ 57))

mutual
def parseVal : Nat → List Nat → Option (Json × List Nat)
  | 0, _ => none
  | fuel + 1, bytes =>
    if isNumStart bytes then (parseNumber bytes).map (fun nr => (.num nr.1, nr.2))
    else
      match bytes with
      | 110 :: 117 :: 108 :: 108 :: rest => some (.null, rest)
      | 116 :: 114 :: 117 :: 101 :: rest => some (.bool true, rest)
      | 102 :: 97 :: 108 :: 115 :: 101 :: rest => some (.bool false, rest)
      | 34 :: rest => (parseStringBody rest).map (fun sr => (.str sr.1, sr.2))
      | 91 :: rest => (parseItems fuel rest).map (fun ir => (.arr ir.1, ir.2))
      | 123 :: rest => (parseFields fuel rest).map (fun fr => (.obj fr.1, fr.2))
      | _ => none

def parseItems : Nat → List Nat → Option (List Json × List Nat)
  | 0, _ => none
  | fuel + 1, [] => none
  | fuel + 1, b :: bs =>
    if b = 93 then some ([], bs)
    else
      match parseVal fuel (b :: bs) with
      | none => none
      | some (v, rest1) =>
        match rest1 with
        | 44 :: rest2 => (parseItems fuel rest2).map (fun ir => (v :: ir.1, ir.2))
        | 93 :: rest2 => some ([v], rest2)
        | _ => none

def parseFields : Nat → List Nat → Option (List (List Nat × Json) × List Nat)
  | 0, _ => none
  | fuel + 1, bytes =>
    match bytes with
    | 125 :: rest => some ([], rest)
    | 34 :: rest =>
      match parseStringBody rest with
      | none => none
      | some (k, rest1) =>
        match rest1 with
        | 58 :: rest2 =>
          match parseVal fuel rest2 with
          | none => none
          | some (v, rest3) =>
            match rest3 with
            | 44 :: rest4 => (parseFields fuel rest4).map (fun fr => ((k, v) :: fr.1, fr.2))
            | 125 :: rest4 => some ([(k, v)], rest4)
            | _ => none
        | _ => none
    | _ => none
end

/-- `serde_json::from_slice` on a whole buffer: one value, no trailing
bytes. -/
def jsonFromSlice (bytes : List Nat) : Option Json :=
  match parseVal (bytes.length + 1) bytes with
  | some (v, []) => some v
  | _ => none

mutual
def sizeJ : Json → Nat
  | .null => 1
  | .bool _ => 1
  | .num _ => 1
  | .str _ => 1
  | .arr items => 1 + sizeItems items
  | .obj fields => 1 + sizeFields fields

def sizeItems : List Json → Nat
  | [] => 1
  | v :: rest => 1 + max (sizeJ v) (sizeItems rest)

def sizeFields : List (List Nat × Json) → Nat
  | [] => 1
  | (_, v) :: rest => 1 + max (sizeJ v) (sizeFields rest)
end

end RustSsb

namespace RustSsb

/-! ## JSON codec round-trip lemmas -/

def notDigitStart : List Nat → Prop
  | [] => True
  | b :: _ => ¬(48 ≤ b ∧ b ≤ 57)

theorem hexVal_hexDigit : ∀ n < 16, hexVal (hexDigit n) = some n := by decide

theorem psb_quote (rest : List Nat) :
    parseStringBody (34 :: rest) = some ([], rest) := by
  conv_lhs => rw [parseStringBody.eq_def]
  simp

theorem psb_esc (e out : Nat) (tail : List Nat)
    (h : (e, out) = (34, 34) ∨ (e, out) = (92, 92) ∨ (e, out) = (98, 8)
      ∨ (e, out) = (116, 9) ∨ (e, out) = (110, 10) ∨ (e, out) = (102, 12)
      ∨ (e, out) = (114, 13)) :
    parseStringBody (92 :: e :: tail)
      = (parseStringBody tail).map (fun sr => (out :: sr.1, sr.2)) := by
  rcases h with h | h | h | h | h | h | h <;>
    (obtain ⟨he, ho⟩ := Prod.mk.injEq .. ▸ h
     subst he
     subst ho
     conv_lhs => rw [parseStringBody.eq_def]
     simp)

theorem psb_esc_u (b : Nat) (hlt : b < 32) (tail : List Nat) :
    parseStringBody (92 :: 117 :: 48 :: 48 :: hexDigit (b / 16) :: hexDigit (b % 16) :: tail)
      = (parseStringBody tail).map (fun sr => (b :: sr.1, sr.2)) := by
  have hdiv : hexVal (hexDigit (b / 16)) = some (b / 16) := hexVal_hexDigit _ (by omega)
  have hmod : hexVal (hexDigit (b % 16)) = some (b % 16) := hexVal_hexDigit _ (by omega)
  conv_lhs => rw [parseStringBody.eq_def]
  simp only [show hexVal 48 = some 0 from rfl, hdiv, hmod]
  norm_num
  rw [show b / 16 * 16 + b % 16 = b from by omega]
  rw [if_pos (by omega)]

theorem psb_generic (b : Nat) (h34 : ¬ b = 34) (h92 : ¬ b = 92) (tail : List Nat) :
    parseStringBody (b :: tail)
      = (parseStringBody tail).map (fun sr => (b :: sr.1, sr.2)) := by
  conv_lhs => rw [parseStringBody.eq_def]
  simp only [h34, h92, if_false, reduceIte]

theorem parseStringBody_escape :
    ∀ (s rest : List Nat), parseStringBody (escapeBytes s ++ 34 :: rest) = some (s, rest) := by
  intro s
  induction s with
  | nil =>
    intro rest
    simp only [escapeBytes, List.flatMap_nil, List.nil_append]
    exact psb_quote rest
  | cons b s ih =>
    intro rest
    have hesc : escapeBytes (b :: s) ++ 34 :: rest
        = escapeByte b ++ (escapeBytes s ++ 34 :: rest) := by
      simp [escapeBytes]
    rw [hesc]
    by_cases h34 : b = 34
    · subst h34
      rw [show escapeByte 34 = [92, 34] from rfl]
      rw [List.cons_append, List.cons_append, List.nil_append,
        psb_esc 34 34 _ (by norm_num), ih]
      rfl
    · by_cases h92 : b = 92
      · subst h92
        rw [show escapeByte 92 = [92, 92] from rfl]
        rw [List.cons_append, List.cons_append, List.nil_append,
          psb_esc 92 92 _ (by norm_num), ih]
        rfl
      · by_cases h8 : b = 8
        · subst h8
          rw [show escapeByte 8 = [92, 98] from rfl]
          rw [List.cons_append, List.cons_append, List.nil_append,
            psb_esc 98 8 _ (by norm_num), ih]
          rfl
        · by_cases h9 : b = 9
          · subst h9
            rw [show escapeByte 9 = [92, 116] from rfl]
            rw [List.cons_append, List.cons_append, List.nil_append,
              psb_esc 116 9 _ (by norm_num), ih]
            rfl
          · by_cases h10 : b = 10
            · subst h10
              rw [show escapeByte 10 = [92, 110] from rfl]
              rw [List.cons_append, List.cons_append, List.nil_append,
                psb_esc 110 10 _ (by norm_num), ih]
              rfl
            · by_cases h12 : b = 12
              · subst h12
                rw [show escapeByte 12 = [92, 102] from rfl]
                rw [List.cons_append, List.cons_append, List.nil_append,
                  psb_esc 102 12 _ (by norm_num), ih]
                rfl
              · by_cases h13 : b = 13
                · subst h13
                  rw [show escapeByte 13 = [92, 114] from rfl]
                  rw [List.cons_append, List.cons_append, List.nil_append,
                    psb_esc 114 13 _ (by norm_num), ih]
                  rfl
                · by_cases hlt : b < 32
                  · rw [show escapeByte b
                        = [92, 117, 48, 48, hexDigit (b / 16), hexDigit (b % 16)] from by
                      simp [escapeByte, h34, h92, h8, h9, h10, h12, h13, hlt]]
                    simp only [List.cons_append, List.nil_append]
                    rw [psb_esc_u b hlt _, ih]
                    rfl
                  · rw [show escapeByte b = [b] from by
                      simp [escapeByte, h34, h92, h8, h9, h10, h12, h13, hlt]]
                    simp only [List.cons_append, List.nil_append]
                    rw [psb_generic b h34 h92 _, ih]
                    rfl

theorem natDigits_digits : ∀ n : Nat, ∀ b ∈ natDigits n, 48 ≤ b ∧ b ≤ 57 := by
  intro n
  induction n using Nat.strong_induction_on with
  | _ n ih =>
    intro b hb
    rw [natDigits] at hb
    split at hb
    · simp at hb
      omega
    · rcases List.mem_append.mp hb with h1 | h1
      · exact ih (n / 10) (Nat.div_lt_self (by omega) (by norm_num)) b h1
      · simp at h1
        have : n % 10 < 10 := Nat.mod_lt _ (by norm_num)
        omega

theorem natDigits_ne_nil (n : Nat) : natDigits n ≠ [] := by
  rw [natDigits]
  split
  · simp
  · simp

theorem digitsVal_append_singleton (ds : List Nat) (d : Nat) :
    digitsVal (ds ++ [d]) = digitsVal ds * 10 + (d - 48) := by
  simp [digitsVal, List.foldl_append]

theorem digitsVal_natDigits : ∀ n : Nat, digitsVal (natDigits n) = n := by
  intro n
  induction n using Nat.strong_induction_on with
  | _ n ih =>
    rw [natDigits]
    split
    · simp [digitsVal]
    · rw [digitsVal_append_singleton,
        ih (n / 10) (Nat.div_lt_self (by omega) (by norm_num))]
      omega

theorem takeDigits_append :
    ∀ (ds rest : List Nat), (∀ b ∈ ds, 48 ≤ b ∧ b ≤ 57) → notDigitStart rest →
      takeDigits (ds ++ rest) = (ds, rest) := by
  intro ds
  induction ds with
  | nil =>
    intro rest _ hnd
    cases rest with
    | nil => rfl
    | cons b r =>
      simp only [List.nil_append, takeDigits]
      rw [if_neg hnd]
  | cons d ds ih =>
    intro rest hd hnd
    have hdd : 48 ≤ d ∧ d ≤ 57 := hd d (List.mem_cons_self ..)
    have ihh := ih rest (fun b hb => hd b (List.mem_cons_of_mem _ hb)) hnd
    simp only [List.cons_append, takeDigits, if_pos hdd]
    simp [ihh]

theorem parseNumber_intBytes (n : Int) (rest : List Nat) (hnd : notDigitStart rest) :
    parseNumber (intBytes n ++ rest) = some (n, rest) := by
  by_cases hneg : n < 0
  · rw [intBytes, if_pos hneg]
    have htd := takeDigits_append (natDigits (-n).toNat) rest
      (natDigits_digits _) hnd
    simp only [List.cons_append, parseNumber, if_pos rfl, htd]
    rw [if_neg (natDigits_ne_nil _)]
    simp [digitsVal_natDigits]
    omega
  · rw [intBytes, if_neg hneg]
    obtain ⟨d, D, hD⟩ := List.exists_cons_of_ne_nil (natDigits_ne_nil n.toNat)
    have hdd : 48 ≤ d ∧ d ≤ 57 := natDigits_digits n.toNat d (by rw [hD]; simp)
    have htd := takeDigits_append (natDigits n.toNat) rest (natDigits_digits _) hnd
    rw [hD] at htd ⊢
    simp only [List.cons_append, parseNumber]
    rw [if_neg (by omega)]
    have htd2 : takeDigits (d :: (D ++ rest)) = (d :: D, rest) := by
      rw [← List.cons_append]; exact htd
    rw [htd2]
    rw [if_neg (by simp)]
    rw [← hD, digitsVal_natDigits]
    simp
    omega

theorem isNumStart_intBytes (n : Int) (rest : List Nat) :
    isNumStart (intBytes n ++ rest) = true := by
  by_cases hneg : n < 0
  · rw [intBytes, if_pos hneg]
    simp [isNumStart]
  · rw [intBytes, if_neg hneg]
    obtain ⟨d, D, hD⟩ := List.exists_cons_of_ne_nil (natDigits_ne_nil n.toNat)
    have hdd : 48 ≤ d ∧ d ≤ 57 := natDigits_digits n.toNat d (by rw [hD]; simp)
    rw [hD]
    simp only [List.cons_append, isNumStart, Bool.or_eq_true, decide_eq_true_eq,
      Bool.and_eq_true]
    omega

end RustSsb

namespace RustSsb

/-! ## JSON value round-trip -/

theorem pv_null (fuel : Nat) (rest : List Nat) :
    parseVal (fuel + 1) (110 :: 117 :: 108 :: 108 :: rest) = some (.null, rest) := by
  rfl

theorem pv_true (fuel : Nat) (rest : List Nat) :
    parseVal (fuel + 1) (116 :: 114 :: 117 :: 101 :: rest) = some (.bool true, rest) := by
  rfl

theorem pv_false (fuel : Nat) (rest : List Nat) :
    parseVal (fuel + 1) (102 :: 97 :: 108 :: 115 :: 101 :: rest) = some (.bool false, rest) := by
  rfl

theorem pv_str (fuel : Nat) (rest : List Nat) :
    parseVal (fuel + 1) (34 :: rest)
      = (parseStringBody rest).map (fun sr => (.str sr.1, sr.2)) := by
  rfl

theorem pv_arr (fuel : Nat) (rest : List Nat) :
    parseVal (fuel + 1) (91 :: rest)
      = (parseItems fuel rest).map (fun ir => (.arr ir.1, ir.2)) := by
  rfl

theorem pv_obj (fuel : Nat) (rest : List Nat) :
    parseVal (fuel + 1) (123 :: rest)
      = (parseFields fuel rest).map (fun fr => (.obj fr.1, fr.2)) := by
  rfl

theorem pv_num (fuel : Nat) (bytes : List Nat) (h : isNumStart bytes = true) :
    parseVal (fuel + 1) bytes
      = (parseNumber bytes).map (fun nr => (.num nr.1, nr.2)) := by
  simp only [parseVal]
  rw [if_pos h]

theorem pi_close (fuel : Nat) (bs : List Nat) :
    parseItems (fuel + 1) (93 :: bs) = some ([], bs) := by
  rfl

theorem pi_single (fuel b : Nat) (bs r : List Nat) (v : Json) (hb : ¬ b = 93)
    (hpv : parseVal fuel (b :: bs) = some (v, 93 :: r)) :
    parseItems (fuel + 1) (b :: bs) = some ([v], r) := by
  simp only [parseItems]
  rw [if_neg hb, hpv]

theorem pi_cons (fuel b : Nat) (bs r : List Nat) (v : Json) (hb : ¬ b = 93)
    (hpv : parseVal fuel (b :: bs) = some (v, 44 :: r)) :
    parseItems (fuel + 1) (b :: bs)
      = (parseItems fuel r).map (fun ir => (v :: ir.1, ir.2)) := by
  simp only [parseItems]
  rw [if_neg hb, hpv]

theorem pf_close (fuel : Nat) (bs : List Nat) :
    parseFields (fuel + 1) (125 :: bs) = some ([], bs) := by
  rfl

theorem pf_single (fuel : Nat) (rest r1 r2 k : List Nat) (v : Json)
    (hk : parseStringBody rest = some (k, 58 :: r1))
    (hv : parseVal fuel r1 = some (v, 125 :: r2)) :
    parseFields (fuel + 1) (34 :: rest) = some ([(k, v)], r2) := by
  simp only [parseFields]
  rw [hk]
  dsimp only
  rw [hv]

theorem pf_cons (fuel : Nat) (rest r1 r2 k : List Nat) (v : Json)
    (hk : parseStringBody rest = some (k, 58 :: r1))
    (hv : parseVal fuel r1 = some (v, 44 :: r2)) :
    parseFields (fuel + 1) (34 :: rest)
      = (parseFields fuel r2).map (fun fr => ((k, v) :: fr.1, fr.2)) := by
  simp only [parseFields]
  rw [hk]
  dsimp only
  rw [hv]

theorem natDigits_head (n : Nat) :
    ∃ h t, natDigits n = h :: t ∧ (48 ≤ h ∧ h ≤ 57) := by
  obtain ⟨h, t, ht⟩ := List.exists_cons_of_ne_nil (natDigits_ne_nil n)
  exact ⟨h, t, ht, natDigits_digits n h (by rw [ht]; simp)⟩

theorem encode_head (v : Json) :
    ∃ h t, Json.encode v = h :: t ∧ ¬ h = 93 := by
  cases v with
  | null => exact ⟨110, [117, 108, 108], rfl, by norm_num⟩
  | bool b =>
    cases b with
    | false => exact ⟨102, [97, 108, 115, 101], rfl, by norm_num⟩
    | true => exact ⟨116, [114, 117, 101], rfl, by norm_num⟩
  | num n =>
    by_cases hneg : n < 0
    · refine ⟨45, natDigits (-n).toNat, ?_, by norm_num⟩
      simp [Json.encode, intBytes, hneg]
    · obtain ⟨h, t, ht, hb⟩ := natDigits_head n.toNat
      refine ⟨h, t, ?_, by omega⟩
      simp [Json.encode, intBytes, hneg, ht]
  | str s => exact ⟨34, escapeBytes s ++ [34], rfl, by norm_num⟩
  | arr items => exact ⟨91, encodeItems items ++ [93], rfl, by norm_num⟩
  | obj fields => exact ⟨123, encodeFields fields ++ [125], rfl, by norm_num⟩

theorem one_le_sizeJ (v : Json) : 1 ≤ sizeJ v := by
  cases v <;> simp [sizeJ]

theorem one_le_sizeItems (l : List Json) : 1 ≤ sizeItems l := by
  cases l <;> simp [sizeItems]

theorem one_le_sizeFields (l : List (List Nat × Json)) : 1 ≤ sizeFields l := by
  cases l with
  | nil => simp [sizeFields]
  | cons f rest =>
    obtain ⟨k, v⟩ := f
    simp [sizeFields]

end RustSsb

namespace RustSsb

theorem parse_encode :
    ∀ fuel : Nat,
      (∀ (v : Json) (rest : List Nat), sizeJ v ≤ fuel → notDigitStart rest →
        parseVal fuel (Json.encode v ++ rest) = some (v, rest)) ∧
      (∀ (items : List Json) (rest : List Nat), sizeItems items ≤ fuel →
        parseItems fuel (encodeItems items ++ 93 :: rest) = some (items, rest)) ∧
      (∀ (fields : List (List Nat × Json)) (rest : List Nat), sizeFields fields ≤ fuel →
        parseFields fuel (encodeFields fields ++ 125 :: rest) = some (fields, rest)) := by
  intro fuel
  induction fuel with
  | zero =>
    refine ⟨fun v rest hs _ => absurd hs (by have := one_le_sizeJ v; omega),
      fun items rest hs => absurd hs (by have := one_le_sizeItems items; omega),
      fun fields rest hs => absurd hs (by have := one_le_sizeFields fields; omega)⟩
  | succ fuel ih =>
    obtain ⟨ihV, ihI, ihF⟩ := ih
    refine ⟨?_, ?_, ?_⟩
    · intro v rest hs hr
      cases v with
      | null =>
        simp only [Json.encode, List.cons_append, List.nil_append]
        exact pv_null fuel rest
      | bool b =>
        cases b with
        | false =>
          simp only [Json.encode, List.cons_append, List.nil_append]
          exact pv_false fuel rest
        | true =>
          simp only [Json.encode, List.cons_append, List.nil_append]
          exact pv_true fuel rest
      | num n =>
        have he : Json.encode (.num n) = intBytes n := rfl
        rw [he, pv_num fuel _ (isNumStart_intBytes n rest), parseNumber_intBytes n rest hr]
        rfl
      | str s =>
        have he : Json.encode (.str s) ++ rest = 34 :: (escapeBytes s ++ 34 :: rest) := by
          simp [Json.encode]
        rw [he, pv_str, parseStringBody_escape]
        rfl
      | arr items =>
        have hsz : sizeItems items ≤ fuel := by simp only [sizeJ] at hs; omega
        have he : Json.encode (.arr items) ++ rest
            = 91 :: (encodeItems items ++ 93 :: rest) := by
          simp [Json.encode]
        rw [he, pv_arr, ihI items rest hsz]
        rfl
      | obj fields =>
        have hsz : sizeFields fields ≤ fuel := by simp only [sizeJ] at hs; omega
        have he : Json.encode (.obj fields) ++ rest
            = 123 :: (encodeFields fields ++ 125 :: rest) := by
          simp [Json.encode]
        rw [he, pv_obj, ihF fields rest hsz]
        rfl
    · intro items rest hs
      cases items with
      | nil =>
        simp only [encodeItems, List.nil_append]
        exact pi_close fuel rest
      | cons v tail =>
        cases tail with
        | nil =>
          obtain ⟨h, t, ht, hb⟩ := encode_head v
          have hsv : sizeJ v ≤ fuel := by simp only [sizeItems] at hs; omega
          have hpv : parseVal fuel (h :: (t ++ 93 :: rest)) = some (v, 93 :: rest) := by
            rw [← List.cons_append, ← ht]
            exact ihV v (93 :: rest) hsv (by simp [notDigitStart])
          have he : encodeItems [v] ++ 93 :: rest = h :: (t ++ 93 :: rest) := by
            simp [encodeItems, ht]
          rw [he]
          exact pi_single fuel h _ _ v hb hpv
        | cons v2 more =>
          obtain ⟨h, t, ht, hb⟩ := encode_head v
          have hsv : sizeJ v ≤ fuel := by simp only [sizeItems] at hs; omega
          have hst : sizeItems (v2 :: more) ≤ fuel := by
            simp only [sizeItems] at hs ⊢
            omega
          have hpv : parseVal fuel
              (h :: (t ++ (44 :: (encodeItems (v2 :: more) ++ 93 :: rest))))
              = some (v, 44 :: (encodeItems (v2 :: more) ++ 93 :: rest)) := by
            rw [← List.cons_append, ← ht]
            exact ihV v _ hsv (by simp [notDigitStart])
          have he : encodeItems (v :: v2 :: more) ++ 93 :: rest
              = h :: (t ++ (44 :: (encodeItems (v2 :: more) ++ 93 :: rest))) := by
            simp [encodeItems, ht]
          rw [he, pi_cons fuel h _ _ v hb hpv, ihI (v2 :: more) rest hst]
          rfl
    · intro fields rest hs
      cases fields with
      | nil =>
        simp only [encodeFields, List.nil_append]
        exact pf_close fuel rest
      | cons f tail =>
        obtain ⟨k, v⟩ := f
        cases tail with
        | nil =>
          have hsv : sizeJ v ≤ fuel := by simp only [sizeFields] at hs; omega
          have hk : parseStringBody
              (escapeBytes k ++ 34 :: (58 :: (Json.encode v ++ 125 :: rest)))
              = some (k, 58 :: (Json.encode v ++ 125 :: rest)) :=
            parseStringBody_escape k _
          have hv : parseVal fuel (Json.encode v ++ 125 :: rest) = some (v, 125 :: rest) :=
            ihV v (125 :: rest) hsv (by simp [notDigitStart])
          have he : encodeFields [(k, v)] ++ 125 :: rest
              = 34 :: (escapeBytes k ++ 34 :: (58 :: (Json.encode v ++ 125 :: rest))) := by
            simp [encodeFields]
          rw [he]
          exact pf_single fuel _ _ _ k v hk hv
        | cons f2 more =>
          obtain ⟨k2, v2⟩ := f2
          have hsv : sizeJ v ≤ fuel := by simp only [sizeFields] at hs; omega
          have hst : sizeFields ((k2, v2) :: more) ≤ fuel := by
            simp only [sizeFields] at hs ⊢
            omega
          have hk : parseStringBody
              (escapeBytes k ++ 34 :: (58 :: (Json.encode v
                ++ (44 :: (encodeFields ((k2, v2) :: more) ++ 125 :: rest)))))
              = some (k, 58 :: (Json.encode v
                ++ (44 :: (encodeFields ((k2, v2) :: more) ++ 125 :: rest)))) :=
            parseStringBody_escape k _
          have hv : parseVal fuel
              (Json.encode v ++ (44 :: (encodeFields ((k2, v2) :: more) ++ 125 :: rest)))
              = some (v, 44 :: (encodeFields ((k2, v2) :: more) ++ 125 :: rest)) :=
            ihV v _ hsv (by simp [notDigitStart])
          have he : encodeFields ((k, v) :: (k2, v2) :: more) ++ 125 :: rest
              = 34 :: (escapeBytes k ++ 34 :: (58 :: (Json.encode v
                ++ (44 :: (encodeFields ((k2, v2) :: more) ++ 125 :: rest))))) := by
            simp [encodeFields]
          rw [he, pf_cons fuel _ _ _ k v hk hv, ihF ((k2, v2) :: more) rest hst]
          rfl

end RustSsb

namespace RustSsb

mutual
theorem sizeJ_le : ∀ v : Json, sizeJ v ≤ (Json.encode v).length + 1
  | .null => by simp only [sizeJ]; omega
  | .bool b => by simp only [sizeJ]; omega
  | .num n => by simp only [sizeJ]; omega
  | .str s => by simp only [sizeJ]; omega
  | .arr items => by
    have h := sizeItems_le items
    simp only [sizeJ, Json.encode, List.length_cons, List.length_append,
      List.length_nil]
    omega
  | .obj fields => by
    have h := sizeFields_le fields
    simp only [sizeJ, Json.encode, List.length_cons, List.length_append,
      List.length_nil]
    omega

theorem sizeItems_le : ∀ l : List Json, sizeItems l ≤ (encodeItems l).length + 2
  | [] => by simp only [sizeItems]; omega
  | [v] => by
    have h := sizeJ_le v
    simp only [sizeItems, encodeItems]
    omega
  | v :: v2 :: more => by
    have h1 := sizeJ_le v
    have h2 := sizeItems_le (v2 :: more)
    simp only [sizeItems] at h2 ⊢
    simp only [encodeItems, List.length_append, List.length_cons]
    omega

theorem sizeFields_le :
    ∀ l : List (List Nat × Json), sizeFields l ≤ (encodeFields l).length + 2
  | [] => by simp only [sizeFields]; omega
  | [(k, v)] => by
    have h := sizeJ_le v
    simp only [sizeFields, encodeFields, List.length_append, List.length_cons]
    omega
  | (k, v) :: (k2, v2) :: more => by
    have h1 := sizeJ_le v
    have h2 := sizeFields_le ((k2, v2) :: more)
    simp only [sizeFields] at h2 ⊢
    simp only [encodeFields, List.length_append, List.length_cons]
    omega
end

theorem jsonFromSlice_encode (v : Json) : jsonFromSlice (Json.encode v) = some v := by
  have hp := (parse_encode ((Json.encode v).length + 1)).1 v []
    (by have := sizeJ_le v; omega) trivial
  rw [List.append_nil] at hp
  unfold jsonFromSlice
  rw [hp]

end RustSsb

namespace RustSsb

/-! ## RPC packets (src/src/rpc/base/packet.rs)

`Body`, `Request`, `Response`, `Packet`, `RawPacket` and their
parse/build functions are translated from `src/src/rpc/base/packet.rs`.
Strings are their UTF-8 byte lists.  Modelled from the spec:
`String::from_utf8` (std) as the standard UTF-8 acceptance DFA below, and
serde_json's derived codecs for `RequestBody { name, args }` and
`ErrorResponseBody { message, name }` as the corresponding two-field JSON
objects in declaration order (what `serde_json::to_vec` emits), parsed
via `jsonFromSlice` plus field lookup. -/

/-- `String::from_utf8` validity: the UTF-8 acceptance DFA.  The state is
the number of continuation bytes still expected, with dedicated states for
the restricted second-byte ranges after lead bytes `E0`, `ED`, `F0`, `F4`. -/
def utf8Go : Nat → List Nat → Bool
  | s, [] => s == 0
  | 0, b :: rest =>
    if b < 128 then utf8Go 0 rest
    else if 194 ≤ b ∧ b ≤ 223 then utf8Go 1 rest
    else if b = 224 then utf8Go 3 rest
    else if b = 237 then utf8Go 4 rest
    else if 225 ≤ b ∧ b ≤ 239 then utf8Go 2 rest
    else if b = 240 then utf8Go 6 rest
    else if 241 ≤ b ∧ b ≤ 243 then utf8Go 5 rest
    else if b = 244 then utf8Go 7 rest
    else false
  | 1, b :: rest => if 128 ≤ b ∧ b ≤ 191 then utf8Go 0 rest else false
  | 2, b :: rest => if 128 ≤ b ∧ b ≤ 191 then utf8Go 1 rest else false
  | 3, b :: rest => if 160 ≤ b ∧ b ≤ 191 then utf8Go 1 rest else false
  | 4, b :: rest => if 128 ≤ b ∧ b ≤ 159 then utf8Go 1 rest else false
  | 5, b :: rest => if 128 ≤ b ∧ b ≤ 191 then utf8Go 2 rest else false
  | 6, b :: rest => if 144 ≤ b ∧ b ≤ 191 then utf8Go 2 rest else false
  | 7, b :: rest => if 128 ≤ b ∧ b ≤ 143 then utf8Go 2 rest else false
  | _ + 8, _ :: _ => false

def utf8Valid (bs : List Nat) : Bool := utf8Go 0 bs

inductive Body where
  | blob (data : List Nat)
  | string (s : List Nat)
  | json (data : List Nat)

inductive Request where
  | async (number : Nat) (method : List (List Nat)) (args : List Json)
  | streamItem (number : Nat) (body : Body)
  | streamEnd (number : Nat)
  | streamError (number : Nat) (name message : List Nat)

inductive Response where
  | asyncOk (number : Nat) (body : Body)
  | asyncErr (number : Nat) (name message : List Nat)
  | streamItem (number : Nat) (body : Body)
  | streamEnd (number : Nat)
  | streamError (number : Nat) (name message : List Nat)

inductive Packet where
  | request (r : Request)
  | response (r : Response)

inductive PacketParseError where
  | RequestBody (body : List Nat)
  | ErrorResponseBody (body : List Nat)
  | StringPlayloadEncoding
  | UnexpectedBodyType (actual expected : BodyType)

def nameKey : List Nat := [110, 97, 109, 101]
def argsKey : List Nat := [97, 114, 103, 115]
def messageKey : List Nat := [109, 101, 115, 115, 97, 103, 101]

/-- serde_json serialization of `RequestBody { name, args }`. -/
def requestBodyJson (name : List (List Nat)) (args : List Json) : Json :=
  .obj [(nameKey, .arr (name.map .str)), (argsKey, .arr args)]

/-- serde_json serialization of `ErrorResponseBody { message, name }`. -/
def errorResponseBodyJson (name message : List Nat) : Json :=
  .obj [(messageKey, .str message), (nameKey, .str name)]

def strItems : List Json → Option (List (List Nat))
  | [] => some []
  | .str s :: rest => (strItems rest).map (fun ss => s :: ss)
  | _ => none

def requestBodyOfJson : Json → Option (List (List Nat) × List Json)
  | .obj fields =>
    match List.lookup nameKey fields, List.lookup argsKey fields with
    | some (.arr nitems), some (.arr args) =>
      (strItems nitems).map (fun method => (method, args))
    | _, _ => none
  | _ => none

def errorResponseBodyOfJson : Json → Option (List Nat × List Nat)
  | .obj fields =>
    match List.lookup messageKey fields, List.lookup nameKey fields with
    | some (.str message), some (.str name) => some (message, name)
    | _, _ => none
  | _ => none

/-- `serde_json::from_slice::<RequestBody>` (with the derived field
deserializer modelled by `requestBodyOfJson`). -/
def parseRequestBody (bytes : List Nat) :
    Except PacketParseError (List (List Nat) × List Json) :=
  match jsonFromSlice bytes with
  | some j =>
    match requestBodyOfJson j with
    | some r => .ok r
    | none => .error (.RequestBody bytes)
  | none => .error (.RequestBody bytes)

/-- `ErrorResponseBody::parse_json`. -/
def parseErrorResponseBody (bytes : List Nat) :
    Except PacketParseError (List Nat × List Nat) :=
  match jsonFromSlice bytes with
  | some j =>
    match errorResponseBodyOfJson j with
    | some r => .ok r
    | none => .error (.ErrorResponseBody bytes)
  | none => .error (.ErrorResponseBody bytes)

def Body.parse (body_type : BodyType) (data : List Nat) :
    Except PacketParseError Body :=
  match body_type with
  | .Binary => .ok (.blob data)
  | .Utf8String =>
    if utf8Valid data then .ok (.string data) else .error .StringPlayloadEncoding
  | .Json => .ok (.json data)

def Body.into_json : Body → Except PacketParseError (List Nat)
  | .blob _ => .error (.UnexpectedBodyType .Binary .Json)
  | .string _ => .error (.UnexpectedBodyType .Utf8String .Json)
  | .json data => .ok data

/-- `Body::json(&value)` = `Body::Json(serde_json::to_vec(value))`. -/
def Body.jsonOf (v : Json) : Body := .json (Json.encode v)

def Body.build : Body → BodyType × List Nat
  | .blob data => (.Binary, data)
  | .string s => (.Utf8String, s)
  | .json data => (.Json, data)

structure RawPacket where
  request_number : Int
  is_stream : Bool
  is_end_or_error : Bool
  body : Body

def Packet.parse (header : Header) (body0 : List Nat) :
    Except PacketParseError Packet :=
  match Body.parse header.body_type body0 with
  | .error e => .error e
  | .ok body =>
    if 0 < header.request_number then
      if header.flags.is_stream then
        if header.flags.is_end_or_error then
          match body.into_json with
          | .error e => .error e
          | .ok json =>
            if json = [116, 114, 117, 101] then
              .ok (.request (.streamEnd header.request_number.toNat))
            else
              match parseErrorResponseBody json with
              | .error e => .error e
              | .ok (message, name) =>
                .ok (.request (.streamError header.request_number.toNat name message))
        else .ok (.request (.streamItem header.request_number.toNat body))
      else
        match body.into_json with
        | .error e => .error e
        | .ok json =>
          match parseRequestBody json with
          | .error e => .error e
          | .ok (method, args) =>
            .ok (.request (.async header.request_number.toNat method args))
    else
      if header.flags.is_stream then
        if header.flags.is_end_or_error then
          match body.into_json with
          | .error e => .error e
          | .ok json =>
            if json = [116, 114, 117, 101] then
              .ok (.response (.streamEnd (-header.request_number).toNat))
            else
              match parseErrorResponseBody json with
              | .error e => .error e
              | .ok (message, name) =>
                .ok (.response (.streamError (-header.request_number).toNat name message))
        else .ok (.response (.streamItem (-header.request_number).toNat body))
      else
        if header.flags.is_end_or_error then
          match body.into_json with
          | .error e => .error e
          | .ok json =>
            match parseErrorResponseBody json with
            | .error e => .error e
            | .ok (message, name) =>
              .ok (.response (.asyncErr (-header.request_number).toNat name message))
        else .ok (.response (.asyncOk (-header.request_number).toNat body))

/-- `number as i32` / `-(number as i32)` on the `u32` request numbers. -/
def Packet.build_raw : Packet → RawPacket
  | .request (.async number method args) =>
    ⟨decodeI32 number, false, false, Body.jsonOf (requestBodyJson method args)⟩
  | .request (.streamItem number body) =>
    ⟨decodeI32 number, true, false, body⟩
  | .request (.streamEnd number) =>
    ⟨decodeI32 number, true, true, Body.jsonOf (.bool true)⟩
  | .request (.streamError number name message) =>
    ⟨decodeI32 number, true, true, Body.jsonOf (errorResponseBodyJson name message)⟩
  | .response (.asyncOk number body) =>
    ⟨-decodeI32 number, false, false, body⟩
  | .response (.asyncErr number name message) =>
    ⟨-decodeI32 number, false, true, Body.jsonOf (errorResponseBodyJson name message)⟩
  | .response (.streamItem number body) =>
    ⟨-decodeI32 number, true, false, body⟩
  | .response (.streamEnd number) =>
    ⟨-decodeI32 number, true, true, Body.jsonOf (.bool true)⟩
  | .response (.streamError number name message) =>
    ⟨-decodeI32 number, true, true, Body.jsonOf (errorResponseBodyJson name message)⟩

def RawPacket.header_and_body (r : RawPacket) : Header × List Nat :=
  (⟨⟨r.is_stream, r.is_end_or_error⟩, (Body.build r.body).1,
    (Body.build r.body).2.length % 2 ^ 32, r.request_number⟩,
   (Body.build r.body).2)

def Body.Valid : Body → Prop
  | .string s => utf8Valid s = true
  | _ => True

/-- Range of the `proptest` strategy `1..(u32::MAX / 2)` and of the claim:
positive request numbers representable in `i32`. -/
def numberValid (n : Nat) : Prop := 1 ≤ n ∧ n ≤ 2 ^ 31 - 1

def Packet.Valid : Packet → Prop
  | .request (.async n _ _) => numberValid n
  | .request (.streamItem n b) => numberValid n ∧ b.Valid
  | .request (.streamEnd n) => numberValid n
  | .request (.streamError n _ _) => numberValid n
  | .response (.asyncOk n b) => numberValid n ∧ b.Valid
  | .response (.asyncErr n _ _) => numberValid n
  | .response (.streamItem n b) => numberValid n ∧ b.Valid
  | .response (.streamEnd n) => numberValid n
  | .response (.streamError n _ _) => numberValid n

end RustSsb

namespace RustSsb

theorem strItems_map : ∀ ss : List (List Nat), strItems (ss.map Json.str) = some ss := by
  intro ss
  induction ss with
  | nil => rfl
  | cons s rest ih => simp [strItems, ih]

theorem body_parse_build (b : Body) (hb : b.Valid) :
    Body.parse (Body.build b).1 (Body.build b).2 = .ok b := by
  cases b with
  | blob data => rfl
  | string s =>
    have hb2 : utf8Valid s = true := hb
    simp only [Body.build, Body.parse]
    rw [if_pos hb2]
  | json data => rfl

theorem requestBodyOfJson_eval (method : List (List Nat)) (args : List Json) :
    requestBodyOfJson (requestBodyJson method args) = some (method, args) := by
  simp only [requestBodyJson, requestBodyOfJson]
  rw [show (List.lookup nameKey
        [(nameKey, Json.arr (method.map Json.str)), (argsKey, Json.arr args)])
      = some (Json.arr (method.map Json.str)) from rfl]
  rw [show (List.lookup argsKey
        [(nameKey, Json.arr (method.map Json.str)), (argsKey, Json.arr args)])
      = some (Json.arr args) from rfl]
  dsimp only
  rw [strItems_map]
  rfl

theorem errorResponseBodyOfJson_eval (name message : List Nat) :
    errorResponseBodyOfJson (errorResponseBodyJson name message)
      = some (message, name) := rfl

theorem parseRequestBody_encode (method : List (List Nat)) (args : List Json) :
    parseRequestBody (Json.encode (requestBodyJson method args))
      = .ok (method, args) := by
  simp only [parseRequestBody]
  rw [jsonFromSlice_encode]
  dsimp only
  rw [requestBodyOfJson_eval]

theorem parseErrorResponseBody_encode (name message : List Nat) :
    parseErrorResponseBody (Json.encode (errorResponseBodyJson name message))
      = .ok (message, name) := by
  simp only [parseErrorResponseBody]
  rw [jsonFromSlice_encode]
  dsimp only
  rw [errorResponseBodyOfJson_eval]

theorem encode_obj_ne_true (fields : List (List Nat × Json)) :
    ¬ Json.encode (.obj fields) = [116, 114, 117, 101] := by
  simp [Json.encode]

theorem decodeI32_self (n : Nat) (h : n < 2 ^ 31) : decodeI32 n = (n : Int) := by
  unfold decodeI32
  rw [if_pos h]

end RustSsb

namespace RustSsb

/-- C4: For every constructible RPC `Packet` value — requests `Async`,
`StreamItem`, `StreamEnd`, `StreamError` and responses `AsyncOk`,
`AsyncErr`, `StreamItem`, `StreamEnd`, `StreamError`, each with a positive
(`i32`-representable) request number and valid UTF-8 string payloads —
building it into a header and body (`Packet::build_raw` then
`RawPacket::header_and_body`) and parsing the result with `Packet::parse`
returns the identical packet.  In particular stream End is encoded as the
JSON body `true` with the end flag set, and stream Error as a JSON
`{message, name}` object body with the end flag set. -/
theorem packet_parse_build_spec :
    (∀ p : Packet, p.Valid →
      Packet.parse ((Packet.build_raw p).header_and_body).1
        ((Packet.build_raw p).header_and_body).2 = .ok p)
    ∧ (∀ n : Nat,
        (Packet.build_raw (.request (.streamEnd n))).body = .json [116, 114, 117, 101]
        ∧ (Packet.build_raw (.request (.streamEnd n))).is_end_or_error = true
        ∧ (Packet.build_raw (.response (.streamEnd n))).body = .json [116, 114, 117, 101]
        ∧ (Packet.build_raw (.response (.streamEnd n))).is_end_or_error = true)
    ∧ (∀ (n : Nat) (name message : List Nat),
        (Packet.build_raw (.request (.streamError n name message))).body
          = .json (Json.encode (.obj [(messageKey, .str message), (nameKey, .str name)]))
        ∧ (Packet.build_raw (.request (.streamError n name message))).is_end_or_error = true
        ∧ (Packet.build_raw (.response (.streamError n name message))).body
          = .json (Json.encode (.obj [(messageKey, .str message), (nameKey, .str name)]))
        ∧ (Packet.build_raw (.response (.streamError n name message))).is_end_or_error
          = true) := by
  refine ⟨?_, fun n => ⟨rfl, rfl, rfl, rfl⟩, fun n name message => ⟨rfl, rfl, rfl, rfl⟩⟩
  intro p hp
  cases p with
  | request r =>
    cases r with
    | async n method args =>
      obtain ⟨h1, h2⟩ := hp
      have hdn : decodeI32 n = (n : Int) := decodeI32_self n (by omega)
      have hpos : (0 : Int) < (n : Int) := by omega
      have htn : ((n : Int)).toNat = n := by omega
      simp only [Packet.build_raw, RawPacket.header_and_body, Body.build, Body.jsonOf,
        Packet.parse, Body.parse, Body.into_json, hdn]
      rw [if_pos hpos]
      simp only [Bool.false_eq_true, if_false, parseRequestBody_encode, htn]
    | streamItem n b =>
      obtain ⟨⟨h1, h2⟩, hb⟩ := hp
      have hdn : decodeI32 n = (n : Int) := decodeI32_self n (by omega)
      have hpos : (0 : Int) < (n : Int) := by omega
      have htn : ((n : Int)).toNat = n := by omega
      have hbp := body_parse_build b hb
      simp only [Packet.build_raw, RawPacket.header_and_body,
        Packet.parse, hdn, hbp]
      rw [if_pos hpos]
      simp only [if_true, Bool.false_eq_true, if_false, htn]
    | streamEnd n =>
      obtain ⟨h1, h2⟩ := hp
      have hdn : decodeI32 n = (n : Int) := decodeI32_self n (by omega)
      have hpos : (0 : Int) < (n : Int) := by omega
      have htn : ((n : Int)).toNat = n := by omega
      simp only [Packet.build_raw, RawPacket.header_and_body, Body.build, Body.jsonOf,
        Packet.parse, Body.parse, Body.into_json, hdn]
      rw [if_pos hpos]
      simp only [if_true, Json.encode, htn]
    | streamError n name message =>
      obtain ⟨h1, h2⟩ := hp
      have hdn : decodeI32 n = (n : Int) := decodeI32_self n (by omega)
      have hpos : (0 : Int) < (n : Int) := by omega
      have htn : ((n : Int)).toNat = n := by omega
      simp only [Packet.build_raw, RawPacket.header_and_body, Body.build, Body.jsonOf,
        Packet.parse, Body.parse, Body.into_json, hdn]
      rw [if_pos hpos]
      simp only [if_true]
      rw [if_neg (show ¬ (errorResponseBodyJson name message).encode
        = [116, 114, 117, 101] from encode_obj_ne_true _)]
      rw [parseErrorResponseBody_encode]
      simp only [htn]
  | response r =>
    cases r with
    | asyncOk n b =>
      obtain ⟨⟨h1, h2⟩, hb⟩ := hp
      have hdn : decodeI32 n = (n : Int) := decodeI32_self n (by omega)
      have hneg : ¬ (0 : Int) < -(n : Int) := by omega
      have htn : (-(-(n : Int))).toNat = n := by omega
      have hbp := body_parse_build b hb
      simp only [Packet.build_raw, RawPacket.header_and_body,
        Packet.parse, hdn, hbp]
      rw [if_neg hneg]
      simp only [Bool.false_eq_true, if_false, htn]
    | asyncErr n name message =>
      obtain ⟨h1, h2⟩ := hp
      have hdn : decodeI32 n = (n : Int) := decodeI32_self n (by omega)
      have hneg : ¬ (0 : Int) < -(n : Int) := by omega
      have htn : (-(-(n : Int))).toNat = n := by omega
      simp only [Packet.build_raw, RawPacket.header_and_body, Body.build, Body.jsonOf,
        Packet.parse, Body.parse, Body.into_json, hdn]
      rw [if_neg hneg]
      simp only [Bool.false_eq_true, if_false, if_true]
      rw [parseErrorResponseBody_encode]
      simp only [htn]
    | streamItem n b =>
      obtain ⟨⟨h1, h2⟩, hb⟩ := hp
      have hdn : decodeI32 n = (n : Int) := decodeI32_self n (by omega)
      have hneg : ¬ (0 : Int) < -(n : Int) := by omega
      have htn : (-(-(n : Int))).toNat = n := by omega
      have hbp := body_parse_build b hb
      simp only [Packet.build_raw, RawPacket.header_and_body,
        Packet.parse, hdn, hbp]
      rw [if_neg hneg]
      simp only [if_true, Bool.false_eq_true, if_false, htn]
    | streamEnd n =>
      obtain ⟨h1, h2⟩ := hp
      have hdn : decodeI32 n = (n : Int) := decodeI32_self n (by omega)
      have hneg : ¬ (0 : Int) < -(n : Int) := by omega
      have htn : (-(-(n : Int))).toNat = n := by omega
      simp only [Packet.build_raw, RawPacket.header_and_body, Body.build, Body.jsonOf,
        Packet.parse, Body.parse, Body.into_json, hdn]
      rw [if_neg hneg]
      simp only [if_true, Json.encode, htn]
    | streamError n name message =>
      obtain ⟨h1, h2⟩ := hp
      have hdn : decodeI32 n = (n : Int) := decodeI32_self n (by omega)
      have hneg : ¬ (0 : Int) < -(n : Int) := by omega
      have htn : (-(-(n : Int))).toNat = n := by omega
      simp only [Packet.build_raw, RawPacket.header_and_body, Body.build, Body.jsonOf,
        Packet.parse, Body.parse, Body.into_json, hdn]
      rw [if_neg hneg]
      simp only [if_true]
      rw [if_neg (show ¬ (errorResponseBodyJson name message).encode
        = [116, 114, 117, 101] from encode_obj_ne_true _)]
      rw [parseErrorResponseBody_encode]
      simp only [htn]

end RustSsb

namespace RustSsb

theorem packet_parse_build_spec_witness :
    (Packet.parse ((Packet.build_raw (.request (.streamEnd 7))).header_and_body).1
        ((Packet.build_raw (.request (.streamEnd 7))).header_and_body).2
      = .ok (.request (.streamEnd 7)))
    ∧ (Packet.build_raw (.request (.streamEnd 7))).body = .json [116, 114, 117, 101]
    ∧ (Packet.build_raw (.response (.streamError 7 [97] [98]))).body
      = .json (Json.encode (.obj [(messageKey, .str [98]), (nameKey, .str [97])])) :=
  ⟨packet_parse_build_spec.1 (.request (.streamEnd 7)) ⟨by norm_num, by norm_num⟩,
   (packet_parse_build_spec.2.1 7).1,
   (packet_parse_build_spec.2.2 7 [97] [98]).2.2.1⟩

end RustSsb

namespace RustSsb

/-! ## Server dispatcher (src/src/rpc/base/server/dispatcher.rs)

`RequestDispatcher::handle_request` is embedded as a pure function: the
`streams: HashMap<u32, StreamHandle>` is modelled by its key set (the
handles are channel endpoints), and everything `handle_request` does
through channels or spawned tasks is recorded as an `Effect`.  The
dispatcher's data variant of `Request` (called `StreamData` there) is
`Request.streamItem` of the packet module.  `StreamRequest` and its serde
codec come from `src/src/rpc/base/stream_request.rs` (the `type` field is
serialized as `"source"`/`"sink"`/`"duplex"`). -/

inductive RequestType where
  | source
  | sink
  | duplex
deriving DecidableEq, Repr

def typeKey : List Nat := [116, 121, 112, 101]
def sourceBytes : List Nat := [115, 111, 117, 114, 99, 101]
def sinkBytes : List Nat := [115, 105, 110, 107]
def duplexBytes : List Nat := [100, 117, 112, 108, 101, 120]

def requestTypeOfJson : Json → Option RequestType
  | .str s =>
    if s = sourceBytes then some .source
    else if s = sinkBytes then some .sink
    else if s = duplexBytes then some .duplex
    else none
  | _ => none

/-- serde_json deserialization of `StreamRequest { name, type_, args }`. -/
def streamRequestOfJson : Json → Option (List (List Nat) × RequestType × List Json)
  | .obj fields =>
    match List.lookup nameKey fields, List.lookup typeKey fields,
        List.lookup argsKey fields with
    | some (.arr nitems), some tj, some (.arr args) =>
      match strItems nitems, requestTypeOfJson tj with
      | some name, some t => some (name, t, args)
      | _, _ => none
    | _, _, _ => none
  | _ => none

def parseStreamRequest (bytes : List Nat) :
    Option (List (List Nat) × RequestType × List Json) :=
  match jsonFromSlice bytes with
  | some j => streamRequestOfJson j
  | none => none

/-- `StreamItem` of `src/src/rpc/base/stream_item.rs` (`Data`/`End`/`Error`). -/
inductive StreamItem where
  | data (body : Body)
  | ended
  | error (name message : List Nat)

/-- One observable action of `handle_request`: a spawned async-response
task, a `StreamItem` pushed into an existing stream's channel, a new
stream handle started from the service, or a response sent through the
responder. -/
inductive Effect where
  | spawnAsyncResponse (number : Nat) (method : List (List Nat)) (args : List Json)
  | streamItemSent (number : Nat) (item : StreamItem)
  | streamStarted (number : Nat) (name : List (List Nat)) (t : RequestType)
      (args : List Json)
  | responded (r : Response)

structure RequestDispatcher where
  streams : List Nat

/-- `"STREAM_DOES_NOT_EXIST"`. -/
def streamDoesNotExistName : List Nat :=
  [83, 84, 82, 69, 65, 77, 95, 68, 79, 69, 83, 95, 78, 79, 84, 95, 69, 88, 73,
   83, 84]

/-- `format!("Stream with ID {:?} does not exist", number)`: the `u32`
debug-prints as its decimal digits. -/
def streamDoesNotExistMsg (number : Nat) : List Nat :=
  [83, 116, 114, 101, 97, 109, 32, 119, 105, 116, 104, 32, 73, 68, 32]
    ++ natDigits number
    ++ [32, 100, 111, 101, 115, 32, 110, 111, 116, 32, 101, 120, 105, 115, 116]

def RequestDispatcher.handle_request (d : RequestDispatcher) (msg : Request) :
    Except (List Nat) (RequestDispatcher × List Effect) :=
  match msg with
  | .async number method args =>
    .ok (d, [.spawnAsyncResponse number method args])
  | .streamItem number body =>
    if number ∈ d.streams then
      .ok (d, [.streamItemSent number (.data body)])
    else
      match body.into_json with
      | .error _ => .error [70, 97, 105, 108, 101, 100]
      | .ok data =>
        match parseStreamRequest data with
        | none => .error [70, 97, 105, 108, 101, 100]
        | some (name, t, args) =>
          .ok (⟨number :: d.streams⟩, [.streamStarted number name t args])
  | .streamEnd number =>
    if number ∈ d.streams then
      .ok (⟨d.streams.erase number⟩, [.streamItemSent number .ended])
    else
      .ok (d, [.responded (.streamError number streamDoesNotExistName
        (streamDoesNotExistMsg number))])
  | .streamError number name message =>
    if number ∈ d.streams then
      .ok (⟨d.streams.erase number⟩, [.streamItemSent number (.error name message)])
    else
      .ok (d, [.responded (.streamError number streamDoesNotExistName
        (streamDoesNotExistMsg number))])

end RustSsb

namespace RustSsb

/-- C7: Whenever the server dispatcher handles a `Request::StreamEnd` or
`Request::StreamError` whose number `n` has no per-stream state, it sends
exactly one `Response::StreamError` with the same number `n`, name
`"STREAM_DOES_NOT_EXIST"` and message `"Stream with ID n does not exist"`
(`n` in decimal), and creates no per-stream state (the dispatcher state is
returned unchanged). -/
theorem dispatcher_unknown_stream_spec (d : RequestDispatcher) (n : Nat)
    (h : ¬ n ∈ d.streams) :
    d.handle_request (.streamEnd n)
      = .ok (d, [.responded (.streamError n streamDoesNotExistName
          (streamDoesNotExistMsg n))])
    ∧ ∀ name message, d.handle_request (.streamError n name message)
      = .ok (d, [.responded (.streamError n streamDoesNotExistName
          (streamDoesNotExistMsg n))]) := by
  constructor
  · simp only [RequestDispatcher.handle_request]
    rw [if_neg h]
  · intro name message
    simp only [RequestDispatcher.handle_request]
    rw [if_neg h]

theorem dispatcher_unknown_stream_spec_witness :
    (¬ 7 ∈ (RequestDispatcher.mk [1, 2]).streams)
    ∧ (RequestDispatcher.mk [1, 2]).handle_request (.streamEnd 7)
      = .ok (⟨[1, 2]⟩, [.responded (.streamError 7 streamDoesNotExistName
          (streamDoesNotExistMsg 7))])
    ∧ streamDoesNotExistMsg 7
      = [83, 116, 114, 101, 97, 109, 32, 119, 105, 116, 104, 32, 73, 68, 32,
         55, 32, 100, 111, 101, 115, 32, 110, 111, 116, 32, 101, 120, 105,
         115, 116] :=
  ⟨by decide,
   (dispatcher_unknown_stream_spec ⟨[1, 2]⟩ 7 (by decide)).1,
   by simp [streamDoesNotExistMsg, natDigits]⟩

end RustSsb

namespace RustSsb

/-! ## Handshake (src/ssb-box-stream/src/handshake.rs)

`Endpoint`, `Authenticate`, `Accept`, the message builders/verifiers and
`box_stream_params` are translated from `handshake.rs`.  Modelled from the
spec: the sodiumoxide primitives behind `crate::crypto`
(cf. `src/src/crypto.rs`).  Diffie-Hellman (`box_` keypairs and
`share_key`/curve25519 scalarmult) is an ideal commutative group: secret
keys are naturals, `dhPub sk = 9 ^ sk mod (2^255 - 19)` (9 is the
curve25519 base point), shared secrets `pk ^ sk mod (2^255 - 19)`; the
ed25519-to-curve25519 conversions `sign_to_box_pk`/`sign_to_box_sk` are
the identity on this group.  `sha256`, `auth::authenticate` and detached
ed25519 signatures are idealized as domain-separated applications of the
`hashNat` compression (a signature is a deterministic 64-byte function of
the signer's public key and the message, producible only via
`sign_detached` with the secret key); `secretbox` is the idealized cipher
of the secretbox section. -/

def DHM : Nat := 2 ^ 255 - 19

/-- Public key of a curve25519 keypair (`gen_keypair`). -/
def dhPub (sk : Nat) : Nat := 9 ^ sk % DHM

/-- `crypto::share_key(public_key, secret_key)`. -/
def dhShare (pk : List Nat) (sk : Nat) : Nat := fromBe pk ^ sk % DHM

def sign_to_box_sk (sk : Nat) : Nat := sk

def sign_to_box_pkB (pk : List Nat) : List Nat := pk

/-- `crypto::hash` (sha256). -/
def shaBytes (d : List Nat) : List Nat := beBytes 32 (hashNat (0 :: d))

/-- `crypto::auth::authenticate(msg, key)`. -/
def authTag (msg key : List Nat) : List Nat := beBytes 32 (hashNat (1 :: (key ++ msg)))

/-- The ideal signature of `msg` under the keypair with public key `pk`. -/
def sigOf (pk : Nat) (msg : List Nat) : List Nat :=
  beBytes 64 (hashNat (2 :: (beBytes 32 pk ++ msg)))

/-- `crypto::sign::sign_detached`. -/
def sign_detached (msg : List Nat) (sk : Nat) : List Nat := sigOf (dhPub sk) msg

/-- `crypto::sign::verify_detached`. -/
def verify_detached (sig msg pk : List Nat) : Bool := sig == sigOf (fromBe pk) msg

/-- `zero_nonce()`. -/
def zeroNonce : List Nat := List.replicate 24 0

inductive HandshakeError where
  | HelloMessageInvalid
  | AuthenticateMessageDecryptFailed
  | AuthenticateSignatureInvalid
  | AcceptMessageDecryptFailed
  | AcceptSignatureInvalid
deriving DecidableEq, Repr

structure Endpoint where
  identity_pk : List Nat
  identity_sk : Nat
  session_pk : List Nat
  session_sk : Nat
  network_identifier : List Nat

def Endpoint.hello_message (e : Endpoint) : List Nat :=
  authTag e.session_pk e.network_identifier ++ e.session_pk

def Endpoint.hello_verify (e : Endpoint) (msg : List Nat) :
    Except HandshakeError (List Nat) :=
  if msg.take 32 = authTag (msg.drop 32) e.network_identifier then .ok (msg.drop 32)
  else .error .HelloMessageInvalid

structure Authenticate where
  ab : Nat
  aB : Nat
  network_identifier : List Nat
  server_session_pk : List Nat

def Authenticate.for_client (client : Endpoint)
    (server_identity_pk server_session_pk : List Nat) : Authenticate :=
  ⟨dhShare server_session_pk client.session_sk,
   dhShare (sign_to_box_pkB server_identity_pk) client.session_sk,
   client.network_identifier, server_session_pk⟩

def Authenticate.for_server (server : Endpoint) (client_session_pk : List Nat) :
    Authenticate :=
  ⟨dhShare client_session_pk server.session_sk,
   dhShare client_session_pk (sign_to_box_sk server.identity_sk),
   server.network_identifier, server.session_pk⟩

def Authenticate.message_key (a : Authenticate) : List Nat :=
  shaBytes (a.network_identifier ++ beBytes 32 a.ab ++ beBytes 32 a.aB)

def Authenticate.signature_payload (a : Authenticate)
    (server_identity_pk : List Nat) : List Nat :=
  a.network_identifier ++ server_identity_pk ++ shaBytes (beBytes 32 a.ab)

def authenticate_message (client : Endpoint) (server_identity_pk : List Nat)
    (a : Authenticate) : List Nat :=
  sbSeal (sign_detached (a.signature_payload server_identity_pk) client.identity_sk
      ++ client.identity_pk)
    zeroNonce (a.message_key)

structure Accept where
  authenticate : Authenticate
  Ab : Nat
  detached_signature_A : List Nat
  client_identity_pk : List Nat

def Accept.for_client (client : Endpoint) (server_identity_pk : List Nat)
    (a : Authenticate) : Accept :=
  ⟨a, dhShare a.server_session_pk (sign_to_box_sk client.identity_sk),
   sign_detached (client.network_identifier ++ server_identity_pk
     ++ shaBytes (beBytes 32 a.ab)) client.identity_sk,
   client.identity_pk⟩

def Accept.for_server (server : Endpoint) (a : Authenticate)
    (client_identity_pk detached_signature_A : List Nat) : Accept :=
  ⟨a, dhShare (sign_to_box_pkB client_identity_pk) server.session_sk,
   detached_signature_A, client_identity_pk⟩

def Accept.message_key (acc : Accept) : List Nat :=
  shaBytes (acc.authenticate.network_identifier ++ beBytes 32 acc.authenticate.ab
    ++ beBytes 32 acc.authenticate.aB ++ beBytes 32 acc.Ab)

def Accept.signature_payload (acc : Accept) : List Nat :=
  acc.authenticate.network_identifier ++ acc.detached_signature_A
    ++ acc.client_identity_pk ++ shaBytes (beBytes 32 acc.authenticate.ab)

def Authenticate.verify_and_accept (a : Authenticate) (server : Endpoint)
    (cipherMsg : List Nat) : Except HandshakeError Accept :=
  match sbOpen cipherMsg zeroNonce a.message_key with
  | none => .error .AuthenticateMessageDecryptFailed
  | some m =>
    if verify_detached (m.take 64) (a.signature_payload server.identity_pk)
        (m.drop 64) then
      .ok (Accept.for_server server a (m.drop 64) (m.take 64))
    else .error .AuthenticateSignatureInvalid

def accept_message (server : Endpoint) (acc : Accept) : List Nat :=
  sbSeal (sign_detached acc.signature_payload server.identity_sk) zeroNonce
    acc.message_key

def accept_message_verify (server_identity_pk : List Nat) (acc : Accept)
    (cipherMsg : List Nat) : Except HandshakeError Unit :=
  match sbOpen cipherMsg zeroNonce acc.message_key with
  | none => .error .AcceptMessageDecryptFailed
  | some sigB =>
    if verify_detached sigB acc.signature_payload server_identity_pk then .ok ()
    else .error .AcceptSignatureInvalid

structure BoxStreamParams where
  send : Params
  receive : Params

def box_stream_nonce (e : Endpoint) (receiver_key : List Nat) : List Nat :=
  (authTag receiver_key e.network_identifier).take 24

def box_stream_key (acc : Accept) (receiver_id_pk : List Nat) : List Nat :=
  shaBytes (shaBytes acc.message_key ++ receiver_id_pk)

def box_stream_params (lo : Endpoint) (acc : Accept)
    (remote_identity_pk remote_session_pk : List Nat) : BoxStreamParams :=
  ⟨Params.mk (box_stream_key acc remote_identity_pk)
     (box_stream_nonce lo remote_session_pk),
   Params.mk (box_stream_key acc lo.identity_pk)
     (box_stream_nonce lo lo.session_pk)⟩

/-- An endpoint with freshly generated session keys, as both `handshake`
methods build it. -/
def mkEndpoint (ni : List Nat) (idSk sessSk : Nat) : Endpoint :=
  ⟨beBytes 32 (dhPub idSk), idSk, beBytes 32 (dhPub sessSk), sessSk, ni⟩

/-- The two `handshake` executions connected by a reliable duplex pipe,
with the client configured with the server's actual identity public key:
client hello, server hello, client authenticate, server accept, in the
order the protocol forces. -/
def handshakeRun (ni : List Nat) (sIdSk cIdSk sSessSk cSessSk : Nat) :
    Except HandshakeError (BoxStreamParams × BoxStreamParams × List Nat) :=
  match (mkEndpoint ni sIdSk sSessSk).hello_verify
      (mkEndpoint ni cIdSk cSessSk).hello_message with
  | .error e => .error e
  | .ok client_session_pk =>
    match (mkEndpoint ni cIdSk cSessSk).hello_verify
        (mkEndpoint ni sIdSk sSessSk).hello_message with
    | .error e => .error e
    | .ok server_session_pk =>
      match (Authenticate.for_server (mkEndpoint ni sIdSk sSessSk)
          client_session_pk).verify_and_accept (mkEndpoint ni sIdSk sSessSk)
          (authenticate_message (mkEndpoint ni cIdSk cSessSk)
            (mkEndpoint ni sIdSk sSessSk).identity_pk
            (Authenticate.for_client (mkEndpoint ni cIdSk cSessSk)
              (mkEndpoint ni sIdSk sSessSk).identity_pk server_session_pk)) with
      | .error e => .error e
      | .ok sAccept =>
        match accept_message_verify (mkEndpoint ni sIdSk sSessSk).identity_pk
            (Accept.for_client (mkEndpoint ni cIdSk cSessSk)
              (mkEndpoint ni sIdSk sSessSk).identity_pk
              (Authenticate.for_client (mkEndpoint ni cIdSk cSessSk)
                (mkEndpoint ni sIdSk sSessSk).identity_pk server_session_pk))
            (accept_message (mkEndpoint ni sIdSk sSessSk) sAccept) with
        | .error e => .error e
        | .ok _ =>
          .ok (box_stream_params (mkEndpoint ni cIdSk cSessSk)
                (Accept.for_client (mkEndpoint ni cIdSk cSessSk)
                  (mkEndpoint ni sIdSk sSessSk).identity_pk
                  (Authenticate.for_client (mkEndpoint ni cIdSk cSessSk)
                    (mkEndpoint ni sIdSk sSessSk).identity_pk server_session_pk))
                (mkEndpoint ni sIdSk sSessSk).identity_pk server_session_pk,
              box_stream_params (mkEndpoint ni sIdSk sSessSk) sAccept
                sAccept.client_identity_pk client_session_pk,
              sAccept.client_identity_pk)

end RustSsb

namespace RustSsb

theorem isBytes_append {a b : List Nat} (ha : IsBytes a) (hb : IsBytes b) :
    IsBytes (a ++ b) := fun x hx => (List.mem_append.mp hx).elim (ha x) (hb x)

theorem dhPub_lt (sk : Nat) : dhPub sk < 256 ^ 32 := by
  have h1 : dhPub sk < DHM := Nat.mod_lt _ (by norm_num [DHM])
  have h2 : DHM < 256 ^ 32 := by norm_num [DHM]
  omega

theorem fromBe_dhPub (x : Nat) : fromBe (beBytes 32 (dhPub x)) = dhPub x :=
  fromBe_beBytes_of_lt (dhPub_lt x)

theorem dhShare_pub_comm (a b : Nat) :
    dhShare (beBytes 32 (dhPub a)) b = dhShare (beBytes 32 (dhPub b)) a := by
  unfold dhShare
  rw [fromBe_dhPub, fromBe_dhPub]
  unfold dhPub
  calc (9 ^ a % DHM) ^ b % DHM = (9 ^ a) ^ b % DHM := (Nat.pow_mod _ _ _).symm
    _ = (9 ^ b) ^ a % DHM := by rw [← pow_mul, ← pow_mul, Nat.mul_comm]
    _ = (9 ^ b % DHM) ^ a % DHM := Nat.pow_mod _ _ _

theorem verify_sign (P pk : List Nat) (sk : Nat) (h : pk = beBytes 32 (dhPub sk)) :
    verify_detached (sign_detached P sk) P pk = true := by
  unfold verify_detached sign_detached
  rw [h, fromBe_dhPub]
  exact beq_self_eq_true _

theorem hello_verify_hello_message (a b : Endpoint)
    (h : a.network_identifier = b.network_identifier) :
    a.hello_verify b.hello_message = .ok b.session_pk := by
  unfold Endpoint.hello_verify Endpoint.hello_message
  rw [List.take_left' (show (authTag b.session_pk b.network_identifier).length = 32
      from length_beBytes _ _),
    List.drop_left' (show (authTag b.session_pk b.network_identifier).length = 32
      from length_beBytes _ _)]
  rw [h, if_pos rfl]

theorem auth_agree (c s : Endpoint)
    (hni : c.network_identifier = s.network_identifier)
    (hcs : c.session_pk = beBytes 32 (dhPub c.session_sk))
    (hss : s.session_pk = beBytes 32 (dhPub s.session_sk))
    (hsi : s.identity_pk = beBytes 32 (dhPub s.identity_sk)) :
    Authenticate.for_client c s.identity_pk s.session_pk
      = Authenticate.for_server s c.session_pk := by
  unfold Authenticate.for_client Authenticate.for_server sign_to_box_pkB
    sign_to_box_sk
  rw [hcs, hss, hsi, hni]
  simp only [Authenticate.mk.injEq]
  exact ⟨dhShare_pub_comm _ _, dhShare_pub_comm _ _, by trivial, by trivial⟩

theorem accept_agree (c s : Endpoint)
    (hcs : c.session_pk = beBytes 32 (dhPub c.session_sk))
    (hss : s.session_pk = beBytes 32 (dhPub s.session_sk))
    (hci : c.identity_pk = beBytes 32 (dhPub c.identity_sk)) :
    Accept.for_server s (Authenticate.for_client c s.identity_pk s.session_pk)
        c.identity_pk
        (sign_detached ((Authenticate.for_client c s.identity_pk
            s.session_pk).signature_payload s.identity_pk) c.identity_sk)
      = Accept.for_client c s.identity_pk
          (Authenticate.for_client c s.identity_pk s.session_pk) := by
  unfold Accept.for_client Accept.for_server sign_to_box_pkB sign_to_box_sk
  simp only [Accept.mk.injEq]
  refine ⟨by trivial, ?_, ?_, by trivial⟩
  · dsimp only [Authenticate.for_client]
    rw [hci, hss]
    exact dhShare_pub_comm _ _
  · dsimp only [Authenticate.for_client, Authenticate.signature_payload]

theorem run_verify_and_accept (c s : Endpoint)
    (hni : c.network_identifier = s.network_identifier)
    (hcs : c.session_pk = beBytes 32 (dhPub c.session_sk))
    (hss : s.session_pk = beBytes 32 (dhPub s.session_sk))
    (hsi : s.identity_pk = beBytes 32 (dhPub s.identity_sk))
    (hci : c.identity_pk = beBytes 32 (dhPub c.identity_sk)) :
    (Authenticate.for_server s c.session_pk).verify_and_accept s
        (authenticate_message c s.identity_pk
          (Authenticate.for_client c s.identity_pk s.session_pk))
      = .ok (Accept.for_client c s.identity_pk
          (Authenticate.for_client c s.identity_pk s.session_pk)) := by
  rw [← auth_agree c s hni hcs hss hsi]
  unfold Authenticate.verify_and_accept authenticate_message
  have hopen := sbOpen_sbSeal
    (sign_detached ((Authenticate.for_client c s.identity_pk
        s.session_pk).signature_payload s.identity_pk) c.identity_sk
      ++ c.identity_pk)
    zeroNonce
    ((Authenticate.for_client c s.identity_pk s.session_pk).message_key)
    (isBytes_append (isBytes_beBytes 64 _)
      (by rw [hci]; exact isBytes_beBytes _ _))
  rw [hopen]
  dsimp only
  rw [List.take_left' (show (sign_detached ((Authenticate.for_client c s.identity_pk
        s.session_pk).signature_payload s.identity_pk) c.identity_sk).length = 64
      from length_beBytes _ _),
    List.drop_left' (show (sign_detached ((Authenticate.for_client c s.identity_pk
        s.session_pk).signature_payload s.identity_pk) c.identity_sk).length = 64
      from length_beBytes _ _)]
  rw [verify_sign _ _ _ hci]
  rw [if_pos rfl]
  rw [accept_agree c s hcs hss hci]

theorem run_accept_message_verify (c s : Endpoint)
    (hsi : s.identity_pk = beBytes 32 (dhPub s.identity_sk)) :
    accept_message_verify s.identity_pk
        (Accept.for_client c s.identity_pk
          (Authenticate.for_client c s.identity_pk s.session_pk))
        (accept_message s (Accept.for_client c s.identity_pk
          (Authenticate.for_client c s.identity_pk s.session_pk)))
      = .ok () := by
  unfold accept_message_verify accept_message
  have hopen := sbOpen_sbSeal
    (sign_detached (Accept.for_client c s.identity_pk
        (Authenticate.for_client c s.identity_pk
          s.session_pk)).signature_payload s.identity_sk)
    zeroNonce
    ((Accept.for_client c s.identity_pk
        (Authenticate.for_client c s.identity_pk s.session_pk)).message_key)
    (isBytes_beBytes 64 _)
  rw [hopen]
  dsimp only
  rw [verify_sign _ _ _ hsi]
  rw [if_pos rfl]

end RustSsb

namespace RustSsb

/-- C2: If a client handshake and a server handshake run to completion
against each other over a reliable duplex pipe, with the same network
identifier and the client configured with the server's actual identity
public key, the returned box-stream parameters satisfy
`client.send = server.receive` and `client.receive = server.send` — the
whole `Params`, i.e. both the 32-byte keys and the 24-byte starting
nonces — and the server learns the client's identity public key. -/
theorem handshake_box_stream_params_spec (ni : List Nat)
    (sIdSk cIdSk sSessSk cSessSk : Nat) :
    ∃ client server : BoxStreamParams,
      handshakeRun ni sIdSk cIdSk sSessSk cSessSk
        = .ok (client, server, beBytes 32 (dhPub cIdSk))
      ∧ client.send = server.receive
      ∧ client.receive = server.send
      ∧ client.send.key.length = 32
      ∧ client.send.nonce.length = 24 := by
  refine ⟨box_stream_params (mkEndpoint ni cIdSk cSessSk)
      (Accept.for_client (mkEndpoint ni cIdSk cSessSk)
        (mkEndpoint ni sIdSk sSessSk).identity_pk
        (Authenticate.for_client (mkEndpoint ni cIdSk cSessSk)
          (mkEndpoint ni sIdSk sSessSk).identity_pk
          (mkEndpoint ni sIdSk sSessSk).session_pk))
      (mkEndpoint ni sIdSk sSessSk).identity_pk
      (mkEndpoint ni sIdSk sSessSk).session_pk,
    box_stream_params (mkEndpoint ni sIdSk sSessSk)
      (Accept.for_client (mkEndpoint ni cIdSk cSessSk)
        (mkEndpoint ni sIdSk sSessSk).identity_pk
        (Authenticate.for_client (mkEndpoint ni cIdSk cSessSk)
          (mkEndpoint ni sIdSk sSessSk).identity_pk
          (mkEndpoint ni sIdSk sSessSk).session_pk))
      (mkEndpoint ni cIdSk cSessSk).identity_pk
      (mkEndpoint ni cIdSk cSessSk).session_pk,
    ?_, rfl, rfl, length_beBytes _ _, ?_⟩
  · unfold handshakeRun
    rw [hello_verify_hello_message (mkEndpoint ni sIdSk sSessSk)
        (mkEndpoint ni cIdSk cSessSk) rfl,
      hello_verify_hello_message (mkEndpoint ni cIdSk cSessSk)
        (mkEndpoint ni sIdSk sSessSk) rfl]
    dsimp only
    rw [run_verify_and_accept (mkEndpoint ni cIdSk cSessSk)
      (mkEndpoint ni sIdSk sSessSk) rfl rfl rfl rfl rfl]
    dsimp only
    rw [run_accept_message_verify (mkEndpoint ni cIdSk cSessSk)
      (mkEndpoint ni sIdSk sSessSk) rfl]
    rfl
  · simp [box_stream_params, box_stream_nonce, authTag, length_beBytes]

end RustSsb
